import Mathlib

/-
  Verification development for a two-player online chess platform.

  The embedding below mirrors, definition by definition, the TypeScript
  sources of the repository:
  - the pure chess engine (types, move generation, attack detection,
    move application, game-state transition),
  - the server-side move submission handler of the validate-move edge
    function (rate limiter, structural validation, turn and status checks,
    record update, profile updates on a game-end claim),
  - the client-side reconciliation function syncFromRow and the
    replayMoves function that rebuilds a GameState from a stored move list.

  Modelling conventions: a JS 8x8 array board is modelled as a total
  function from integer coordinates to an optional piece, with squares
  outside the 8x8 range holding none (all source accesses are guarded by
  inBounds, so the two agree wherever the source reads the board); the JS
  deep clone of a board is the identity on the pure value; JS numbers used
  as coordinates, clocks and ratings are modelled as integers; the JS
  while-loop walking a sliding ray is modelled with fuel 8, which is exact
  because a ray leaves the 8x8 board after at most 8 steps.
-/

namespace Chess

inductive PieceType
  | p | n | b | r | q | k
deriving DecidableEq, Repr

inductive PieceColor
  | w | b
deriving DecidableEq, Repr

structure Piece where
  type : PieceType
  color : PieceColor
deriving DecidableEq, Repr

structure Pos where
  row : Int
  col : Int
deriving DecidableEq, Repr

/-- The board: JS Square[][] modelled as a total function, none = empty. -/
def Board := Int → Int → Option Piece

inductive CastleSide
  | kingside | queenside
deriving DecidableEq, Repr

structure Move where
  fromSq : Pos
  toSq : Pos
  piece : Piece
  captured : Option Piece
  promotion : Option PieceType
  castling : Option CastleSide
  enPassant : Bool
deriving DecidableEq, Repr

structure CastleRights where
  k : Bool
  q : Bool
deriving DecidableEq, Repr

structure CastlingState where
  w : CastleRights
  b : CastleRights
deriving DecidableEq, Repr

inductive GameStatus
  | active | checkmate | stalemate | draw | resigned
deriving DecidableEq, Repr

structure GameState where
  board : Board
  turn : PieceColor
  castling : CastlingState
  enPassantTarget : Option Pos
  halfMoveClock : Nat
  fullMoveNumber : Nat
  moveHistory : List Move
  status : GameStatus
  winner : Option PieceColor

/-- The back row of createInitialBoard: r n b q k b n r. -/
def backRowType (c : Int) : PieceType :=
  if c = 0 then .r else if c = 1 then .n else if c = 2 then .b
  else if c = 3 then .q else if c = 4 then .k else if c = 5 then .b
  else if c = 6 then .n else .r

def createInitialBoard : Board := fun r c =>
  if 0 ≤ c ∧ c < 8 then
    if r = 0 then some ⟨backRowType c, .b⟩
    else if r = 1 then some ⟨.p, .b⟩
    else if r = 6 then some ⟨.p, .w⟩
    else if r = 7 then some ⟨backRowType c, .w⟩
    else none
  else none

def createInitialState : GameState where
  board := createInitialBoard
  turn := .w
  castling := ⟨⟨true, true⟩, ⟨true, true⟩⟩
  enPassantTarget := none
  halfMoveClock := 0
  fullMoveNumber := 1
  moveHistory := []
  status := .active
  winner := none

def inBounds (r c : Int) : Bool :=
  decide (0 ≤ r) && decide (r < 8) && decide (0 ≤ c) && decide (c < 8)

/-- Writing one square of the board (JS array assignment on the clone). -/
def setSq (b : Board) (r c : Int) (v : Option Piece) : Board :=
  fun r' c' => if r' = r ∧ c' = c then v else b r' c'

/-- The 64 squares in row-major order, as scanned by the loops in findKing
and getAllLegalMoves. -/
def allSquares : List Pos :=
  (List.range 8).flatMap fun r => (List.range 8).map fun c => ⟨(r : Int), (c : Int)⟩

/-- First square holding a king of the given color in row-major order;
sentinel (-1, -1) when there is none. -/
def findKing (board : Board) (color : PieceColor) : Pos :=
  match allSquares.find? (fun pos => decide (board pos.row pos.col = some ⟨.k, color⟩)) with
  | some pos => pos
  | none => ⟨-1, -1⟩

def knightOffsets : List (Int × Int) :=
  [(-2,-1), (-2,1), (-1,-2), (-1,2), (1,-2), (1,2), (2,-1), (2,1)]

def kingOffsets : List (Int × Int) :=
  [(-1,-1), (-1,0), (-1,1), (0,-1), (0,1), (1,-1), (1,0), (1,1)]

/-- Directions with the slider types that attack along them. -/
def slideDirs : List (Int × Int × List PieceType) :=
  [(-1, 0, [.r, .q]), (1, 0, [.r, .q]), (0, -1, [.r, .q]), (0, 1, [.r, .q]),
   (-1, -1, [.b, .q]), (-1, 1, [.b, .q]), (1, -1, [.b, .q]), (1, 1, [.b, .q])]

/-- One ray of the sliding-attack scan: stop at the first occupied square,
report whether it is an attacker of byColor with one of the given types. -/
def rayAttacked (board : Board) (byColor : PieceColor) (types : List PieceType)
    (dr dc : Int) : Int → Int → Nat → Bool
  | _, _, 0 => false
  | r, c, fuel+1 =>
    if inBounds r c then
      match board r c with
      | some sq => decide (sq.color = byColor) && decide (sq.type ∈ types)
      | none => rayAttacked board byColor types dr dc (r + dr) (c + dc) fuel
    else false

def isSquareAttacked (board : Board) (pos : Pos) (byColor : PieceColor) : Bool :=
  let row := pos.row
  let col := pos.col
  let pawnDir : Int := if byColor = .w then 1 else -1
  (([-1, 1] : List Int).any fun dc =>
    inBounds (row + pawnDir) (col + dc) &&
      decide (board (row + pawnDir) (col + dc) = some ⟨.p, byColor⟩))
  || (knightOffsets.any fun d =>
    inBounds (row + d.1) (col + d.2) &&
      decide (board (row + d.1) (col + d.2) = some ⟨.n, byColor⟩))
  || (kingOffsets.any fun d =>
    inBounds (row + d.1) (col + d.2) &&
      decide (board (row + d.1) (col + d.2) = some ⟨.k, byColor⟩))
  || (slideDirs.any fun d =>
    rayAttacked board byColor d.2.2 d.1 d.2.1 (row + d.1) (col + d.2.1) 8)

def isInCheck (board : Board) (color : PieceColor) : Bool :=
  isSquareAttacked board (findKing board color) (if color = .w then .b else .w)

/-- The move object pushed by addMove with no extra fields: captured is
whatever stands on the destination square. -/
def mkMove (board : Board) (fromSq : Pos) (piece : Piece) (toSq : Pos) : Move where
  fromSq := fromSq
  toSq := toSq
  piece := piece
  captured := board toSq.row toSq.col
  promotion := none
  castling := none
  enPassant := false

def promoTypes : List PieceType := [.q, .r, .b, .n]

/-- The pawn marching direction: -1 for white (up the array), 1 for black. -/
def pawnDir (pc : Piece) : Int := if pc.color = .w then -1 else 1

/-- The pawn double-push start row: 6 for white, 1 for black. -/
def pawnStartRow (pc : Piece) : Int := if pc.color = .w then 6 else 1

/-- The promotion row: 0 for white, 7 for black. -/
def pawnPromoRow (pc : Piece) : Int := if pc.color = .w then 0 else 7

/-- Pawn branch of getRawMoves: forward push with promotion fan-out, double
push from the start row, diagonal captures with promotion fan-out, and en
passant against the stored target square. -/
def pawnRaw (board : Board) (ep : Option Pos) (o : Pos) (pc : Piece) : List Move :=
  let row := o.row
  let col := o.col
  let dir : Int := pawnDir pc
  let startRow : Int := pawnStartRow pc
  let promoRow : Int := pawnPromoRow pc
  (if inBounds (row + dir) col ∧ board (row + dir) col = none then
    (if row + dir = promoRow then
      promoTypes.map fun pr => { mkMove board o pc ⟨row + dir, col⟩ with promotion := some pr }
    else [mkMove board o pc ⟨row + dir, col⟩])
    ++ (if row = startRow ∧ board (row + 2 * dir) col = none then
      [mkMove board o pc ⟨row + 2 * dir, col⟩]
    else [])
  else [])
  ++ ([-1, 1] : List Int).flatMap fun dc =>
    let nr := row + dir
    let nc := col + dc
    if inBounds nr nc then
      (match board nr nc with
       | some tgt =>
         if tgt.color ≠ pc.color then
           if nr = promoRow then
             promoTypes.map fun pr => { mkMove board o pc ⟨nr, nc⟩ with promotion := some pr }
           else [mkMove board o pc ⟨nr, nc⟩]
         else []
       | none => [])
      ++ (match ep with
          | some t =>
            if t.row = nr ∧ t.col = nc then
              [{ mkMove board o pc ⟨nr, nc⟩ with enPassant := true, captured := board row nc }]
            else []
          | none => [])
    else []

/-- JS condition !board[r][c] || board[r][c].color !== piece.color. -/
def canMoveTo (board : Board) (pc : Piece) (r c : Int) : Bool :=
  match board r c with
  | none => true
  | some q => decide (q.color ≠ pc.color)

def knightRaw (board : Board) (o : Pos) (pc : Piece) : List Move :=
  knightOffsets.filterMap fun d =>
    let r := o.row + d.1
    let c := o.col + d.2
    if inBounds r c && canMoveTo board pc r c then some (mkMove board o pc ⟨r, c⟩) else none

/-- King branch of getRawMoves: one-step moves plus castling candidates. -/
def kingRaw (board : Board) (cs : CastlingState) (turn : PieceColor) (o : Pos)
    (pc : Piece) : List Move :=
  let row := o.row
  let col := o.col
  let oneStep := kingOffsets.filterMap fun d =>
    let r := row + d.1
    let c := col + d.2
    if inBounds r c && canMoveTo board pc r c then some (mkMove board o pc ⟨r, c⟩) else none
  let cr := if turn = .w then cs.w else cs.b
  let enemy : PieceColor := if turn = .w then .b else .w
  let kside :=
    if cr.k && (board row 5).isNone && (board row 6).isNone
        && !isSquareAttacked board ⟨row, 4⟩ enemy
        && !isSquareAttacked board ⟨row, 5⟩ enemy
        && !isSquareAttacked board ⟨row, 6⟩ enemy then
      [{ mkMove board o pc ⟨row, 6⟩ with castling := some .kingside }]
    else []
  let qside :=
    if cr.q && (board row 3).isNone && (board row 2).isNone && (board row 1).isNone
        && !isSquareAttacked board ⟨row, 4⟩ enemy
        && !isSquareAttacked board ⟨row, 3⟩ enemy
        && !isSquareAttacked board ⟨row, 2⟩ enemy then
      [{ mkMove board o pc ⟨row, 2⟩ with castling := some .queenside }]
    else []
  oneStep ++ kside ++ qside

/-- One ray of sliding-move generation: empty squares, then at most one
capture square. -/
def raySquares (board : Board) (myColor : PieceColor) (dr dc : Int) :
    Int → Int → Nat → List Pos
  | _, _, 0 => []
  | r, c, fuel+1 =>
    if inBounds r c then
      match board r c with
      | some sq => if sq.color ≠ myColor then [⟨r, c⟩] else []
      | none => ⟨r, c⟩ :: raySquares board myColor dr dc (r + dr) (c + dc) fuel
    else []

def rookDirs : List (Int × Int) := [(-1,0), (1,0), (0,-1), (0,1)]
def bishopDirs : List (Int × Int) := [(-1,-1), (-1,1), (1,-1), (1,1)]
def queenDirs : List (Int × Int) :=
  [(-1,0), (1,0), (0,-1), (0,1), (-1,-1), (-1,1), (1,-1), (1,1)]

def slideRaw (board : Board) (o : Pos) (pc : Piece) (dirs : List (Int × Int)) : List Move :=
  dirs.flatMap fun d =>
    (raySquares board pc.color d.1 d.2 (o.row + d.1) (o.col + d.2) 8).map
      (mkMove board o pc)

/-- getRawMoves: the pseudo-legal moves of the piece at the origin square,
ignoring self-check. -/
def getRawMoves (s : GameState) (o : Pos) : List Move :=
  match s.board o.row o.col with
  | none => []
  | some piece =>
    if piece.color ≠ s.turn then []
    else
      match piece.type with
      | .p => pawnRaw s.board s.enPassantTarget o piece
      | .n => knightRaw s.board o piece
      | .k => kingRaw s.board s.castling s.turn o piece
      | .r => slideRaw s.board o piece rookDirs
      | .b => slideRaw s.board o piece bishopDirs
      | .q => slideRaw s.board o piece queenDirs

/-- First mutation of applyMoveToBoard: place the moved piece (or the
promoted piece) on the destination square. -/
def applyPromoOrMove (board : Board) (m : Move) : Board :=
  setSq board m.toSq.row m.toSq.col
    (match m.promotion with
     | some pr => some ⟨pr, m.piece.color⟩
     | none => board m.fromSq.row m.fromSq.col)

/-- Second mutation: clear the origin square. -/
def clearFromSq (b : Board) (m : Move) : Board :=
  setSq b m.fromSq.row m.fromSq.col none

/-- Third mutation: on en passant, remove the victim pawn, which stands on
the origin row at the destination column. -/
def applyEnPassantRemoval (b : Board) (m : Move) : Board :=
  if m.enPassant then setSq b m.fromSq.row m.toSq.col none else b

/-- Fourth mutation: on kingside castling, move the rook from file 7 to
file 5. -/
def applyKingsideRook (b : Board) (m : Move) : Board :=
  if m.castling = some .kingside then
    setSq (setSq b m.fromSq.row 5 (b m.fromSq.row 7)) m.fromSq.row 7 none
  else b

/-- Fifth mutation: on queenside castling, move the rook from file 0 to
file 3. -/
def applyQueensideRook (b : Board) (m : Move) : Board :=
  if m.castling = some .queenside then
    setSq (setSq b m.fromSq.row 3 (b m.fromSq.row 0)) m.fromSq.row 0 none
  else b

/-- applyMoveToBoard: relocate (or promote) the piece, clear the origin,
remove the en-passant victim, relocate the rook on castling - the five
mutations of the source in order. -/
def applyMoveToBoard (board : Board) (m : Move) : Board :=
  applyQueensideRook (applyKingsideRook (applyEnPassantRemoval
    (clearFromSq (applyPromoOrMove board m) m) m) m) m

/-- getLegalMoves: raw moves whose application leaves the own king safe. -/
def getLegalMoves (s : GameState) (o : Pos) : List Move :=
  (getRawMoves s o).filter fun m => !isInCheck (applyMoveToBoard s.board m) s.turn

/-- getAllLegalMoves: legal moves of every piece of the side to move. -/
def getAllLegalMoves (s : GameState) : List Move :=
  allSquares.flatMap fun pos =>
    match s.board pos.row pos.col with
    | some pc => if pc.color = s.turn then getLegalMoves s pos else []
    | none => []

def clearRightK (cr : CastleRights) : CastleRights := { cr with k := false }
def clearRightQ (cr : CastleRights) : CastleRights := { cr with q := false }

def setColorRights (cs : CastlingState) (c : PieceColor)
    (f : CastleRights → CastleRights) : CastlingState :=
  match c with
  | .w => { cs with w := f cs.w }
  | .b => { cs with b := f cs.b }

/-- First castling-rights conditional of makeMove: a king move clears both
rights of its color. -/
def castleAfterKingMove (cs : CastlingState) (m : Move) : CastlingState :=
  if m.piece.type = .k then setColorRights cs m.piece.color (fun _ => ⟨false, false⟩) else cs

/-- A rook moving from file 0 clears the queenside right of its color. -/
def castleAfterRookFrom0 (cs : CastlingState) (m : Move) : CastlingState :=
  if m.piece.type = .r ∧ m.fromSq.col = 0 then setColorRights cs m.piece.color clearRightQ else cs

/-- A rook moving from file 7 clears the kingside right of its color. -/
def castleAfterRookFrom7 (cs : CastlingState) (m : Move) : CastlingState :=
  if m.piece.type = .r ∧ m.fromSq.col = 7 then setColorRights cs m.piece.color clearRightK else cs

/-- JS move.captured?.type === r. -/
def rookCaptured (m : Move) : Bool :=
  match m.captured with
  | some cp => decide (cp.type = PieceType.r)
  | none => false

/-- A rook captured on (0,0) clears the black queenside right. -/
def castleCapBQ (cs : CastlingState) (m : Move) : CastlingState :=
  if rookCaptured m ∧ m.toSq.row = 0 ∧ m.toSq.col = 0 then { cs with b := clearRightQ cs.b } else cs

/-- A rook captured on (0,7) clears the black kingside right. -/
def castleCapBK (cs : CastlingState) (m : Move) : CastlingState :=
  if rookCaptured m ∧ m.toSq.row = 0 ∧ m.toSq.col = 7 then { cs with b := clearRightK cs.b } else cs

/-- A rook captured on (7,0) clears the white queenside right. -/
def castleCapWQ (cs : CastlingState) (m : Move) : CastlingState :=
  if rookCaptured m ∧ m.toSq.row = 7 ∧ m.toSq.col = 0 then { cs with w := clearRightQ cs.w } else cs

/-- A rook captured on (7,7) clears the white kingside right. -/
def castleCapWK (cs : CastlingState) (m : Move) : CastlingState :=
  if rookCaptured m ∧ m.toSq.row = 7 ∧ m.toSq.col = 7 then { cs with w := clearRightK cs.w } else cs

/-- The castling-rights block of makeMove: the seven conditional updates of
the source applied in order. -/
def updateCastlingRights (cs : CastlingState) (m : Move) : CastlingState :=
  castleCapWK (castleCapWQ (castleCapBK (castleCapBQ
    (castleAfterRookFrom7 (castleAfterRookFrom0 (castleAfterKingMove cs m) m) m) m) m) m) m

/-- The state makeMove builds before the game-end analysis. -/
def makeMoveBase (s : GameState) (m : Move) : GameState where
  board := applyMoveToBoard s.board m
  turn := if s.turn = .w then .b else .w
  castling := updateCastlingRights s.castling m
  enPassantTarget :=
    if m.piece.type = .p ∧ (m.toSq.row - m.fromSq.row = 2 ∨ m.toSq.row - m.fromSq.row = -2) then
      some ⟨(m.fromSq.row + m.toSq.row) / 2, m.fromSq.col⟩
    else none
  halfMoveClock := if m.piece.type = .p ∨ m.captured.isSome then 0 else s.halfMoveClock + 1
  fullMoveNumber := if s.turn = .b then s.fullMoveNumber + 1 else s.fullMoveNumber
  moveHistory := s.moveHistory ++ [m]
  status := .active
  winner := none

/-- makeMove: apply the move, then recompute the status: no legal reply and
check means checkmate, no legal reply without check means stalemate, a
half-move clock of at least 100 means draw. -/
def makeMove (s : GameState) (m : Move) : GameState :=
  let base := makeMoveBase s m
  if (getAllLegalMoves base).isEmpty then
    if isInCheck base.board base.turn then
      { base with status := .checkmate, winner := some s.turn }
    else
      { base with status := .stalemate }
  else if 100 ≤ base.halfMoveClock then
    { base with status := .draw }
  else base

/-- Wire form of a stored move as replayMoves reads it: origin, destination,
optional promotion. -/
structure MoveData where
  fromSq : Pos
  toSq : Pos
  promotion : Option PieceType
deriving DecidableEq, Repr

def toWire (m : Move) : MoveData := ⟨m.fromSq, m.toSq, m.promotion⟩

/-- One step of replayMoves: look the entry up among the legal moves of the
current state by destination and promotion; apply it when found, skip it
otherwise. -/
def replayStep (state : GameState) (md : MoveData) : GameState :=
  let legal := getLegalMoves state md.fromSq
  match legal.find? (fun l => decide (l.toSq = md.toSq) &&
      (match md.promotion with
       | none => true
       | some pr => decide (l.promotion = some pr))) with
  | some lm => makeMove state lm
  | none => state

/-- replayMoves from part_003: fold the stored move list over the initial
state. -/
def replayMoves (movesData : List MoveData) : GameState :=
  movesData.foldl replayStep createInitialState

/-- Reachability exactly as claim C2 frames it: states produced from the
initial state by repeatedly applying makeMove to a move drawn from
getLegalMoves. -/
inductive Reachable : GameState → Prop
  | init : Reachable createInitialState
  | step (s : GameState) (m : Move) (o : Pos) :
      Reachable s → m ∈ getLegalMoves s o → Reachable (makeMove s m)

/-- The kingside castling right of the given color. -/
def castleK (cs : CastlingState) (c : PieceColor) : Bool :=
  match c with
  | .w => cs.w.k
  | .b => cs.b.k

/-- The invariants of reachable states that make replay matching
unambiguous: the stored en-passant target square is empty (it is the square
a double push passed over), and while a side keeps its kingside castling
right its king is never on file 7 (it starts on file 4 and any king move
clears the right). -/
def Inv (s : GameState) : Prop :=
  (∀ t : Pos, s.enPassantTarget = some t → s.board t.row t.col = none) ∧
  (∀ (c : PieceColor) (r : Int), castleK s.castling c = true →
    s.board r 7 ≠ some ⟨.k, c⟩)

end Chess

namespace Server

open Chess (Pos)

/-- One entry of the in-memory rate-limit map. -/
structure RateEntry where
  count : Nat
  resetAt : Nat
deriving DecidableEq, Repr

/-- The rate-limit map keyed by user id. -/
def RLMap := String → Option RateEntry

def RATE_WINDOW : Nat := 60000

/-- checkRateLimit: start a window of 60000 ms at the first request when no
live window exists; inside a live window accept while the count is below 30,
reject (without mutation) once it reaches 30. Returns the verdict and the
updated map. -/
def checkRateLimit (m : RLMap) (userId : String) (now : Nat) : Bool × RLMap :=
  match m userId with
  | none =>
    (true, fun uid => if uid = userId then some ⟨1, now + RATE_WINDOW⟩ else m uid)
  | some entry =>
    if now > entry.resetAt then
      (true, fun uid => if uid = userId then some ⟨1, now + RATE_WINDOW⟩ else m uid)
    else if entry.count ≥ 30 then (false, m)
    else (true, fun uid => if uid = userId then some ⟨entry.count + 1, entry.resetAt⟩ else m uid)

/-- Wire form of the submitted move descriptor. -/
structure WireMove where
  fromSq : Pos
  toSq : Pos
  promotion : Option String
deriving DecidableEq, Repr

/-- Caller-supplied game-end claim: result plus rating deltas. -/
structure GameEndClaim where
  result : String
  eloChangeWhite : Option Int
  eloChangeBlack : Option Int
deriving DecidableEq, Repr

/-- Parsed request body of the validate-move function. -/
structure ReqBody where
  gameId : String
  move : Option WireMove
  timeRemaining : Option Int
  gameEnd : Option GameEndClaim
deriving DecidableEq, Repr

/-- A move entry as the handler appends it to the stored list. -/
structure StoredMove where
  fromSq : Pos
  toSq : Pos
  promotion : Option String
  timestamp : Nat
deriving DecidableEq, Repr

/-- The persisted game record. -/
structure GameRow where
  white_player : String
  black_player : String
  moves : List StoredMove
  status : String
  result : Option String
  time_white : Int
  time_black : Int
  elo_change_white : Int
  elo_change_black : Int
  last_move_at : Option Nat
  ended_at : Option Nat
deriving DecidableEq, Repr

structure Profile where
  elo_rating : Int
  games_played : Int
  wins : Int
  losses : Int
  draws : Int
deriving DecidableEq, Repr

/-- The relational store seen by the handler: games and profiles. -/
structure DB where
  games : String → Option GameRow
  profiles : String → Option Profile

inductive ServerResult
  | rateLimited
  | missingFields
  | invalidStructure
  | notFound
  | notYourGame
  | notYourTurn
  | gameNotActive
  | success (moveNumber : Nat)
deriving DecidableEq, Repr

/-- validateMoveStructure: both coordinates of both squares in [0, 7]; a
present, non-empty promotion code must be one of q r b n (the JS truthiness
test lets an empty string pass). -/
def validateMoveStructure (mv : WireMove) : Bool :=
  decide (0 ≤ mv.fromSq.row) && decide (mv.fromSq.row ≤ 7)
  && decide (0 ≤ mv.fromSq.col) && decide (mv.fromSq.col ≤ 7)
  && decide (0 ≤ mv.toSq.row) && decide (mv.toSq.row ≤ 7)
  && decide (0 ≤ mv.toSq.col) && decide (mv.toSq.col ≤ 7)
  && (match mv.promotion with
      | none => true
      | some pr => if pr = "" then true else decide (pr ∈ ["q", "r", "b", "n"]))

/-- JS move.promotion || null: an absent or empty promotion is stored as
null. -/
def normPromo (pr : Option String) : Option String :=
  match pr with
  | none => none
  | some s => if s = "" then none else some s

/-- The profile update applied for one player when a game-end claim is
processed: rating delta applied, counters bumped by the outcome. -/
def updateOneProfile (db : DB) (game : GameRow) (ge : GameEndClaim)
    (playerId : String) : DB :=
  let isW := playerId = game.white_player
  let eloChange := if isW then ge.eloChangeWhite.getD 0 else ge.eloChangeBlack.getD 0
  let won := (ge.result = "white" ∧ isW) ∨ (ge.result = "black" ∧ ¬isW)
  let drew := ge.result = "draw"
  match db.profiles playerId with
  | none => db
  | some prof =>
    { db with profiles := fun uid =>
        if uid = playerId then
          some { elo_rating := prof.elo_rating + eloChange,
                 games_played := prof.games_played + 1,
                 wins := prof.wins + (if won then 1 else 0),
                 losses := prof.losses + (if ¬won ∧ ¬drew then 1 else 0),
                 draws := prof.draws + (if drew then 1 else 0) }
        else db.profiles uid }

def applyProfileUpdates (db : DB) (game : GameRow) (ge : GameEndClaim) : DB :=
  ([game.white_player, game.black_player]).foldl
    (fun acc pid => updateOneProfile acc game ge pid) db

/-- The value a profile takes after a game-end claim is processed for the
white (isW = true) or black (isW = false) player. -/
def profileAfter (ge : GameEndClaim) (isW : Bool) (prof : Profile) : Profile where
  elo_rating := prof.elo_rating +
    (if isW = true then ge.eloChangeWhite.getD 0 else ge.eloChangeBlack.getD 0)
  games_played := prof.games_played + 1
  wins := prof.wins +
    (if (ge.result = "white" ∧ isW = true) ∨ (ge.result = "black" ∧ ¬ isW = true)
     then 1 else 0)
  losses := prof.losses +
    (if ¬((ge.result = "white" ∧ isW = true) ∨ (ge.result = "black" ∧ ¬ isW = true)) ∧
        ¬ ge.result = "draw"
     then 1 else 0)
  draws := prof.draws + (if ge.result = "draw" then 1 else 0)

/-- The validate-move request handler after authentication: rate limit,
body checks, structural validation, game fetch, participant check, turn
parity from the stored move-list length, active-status check, then append
the descriptor, record times, apply a game-end claim, and update profiles.
Legality of the move against the chess rules is never consulted. -/
def handleValidateMove (rl : RLMap) (db : DB) (userId : String) (now : Nat)
    (body : ReqBody) : ServerResult × RLMap × DB :=
  let res := checkRateLimit rl userId now
  let rl' := res.2
  if res.1 = false then (.rateLimited, rl, db)
  else
    match body.move with
    | none => (.missingFields, rl', db)
    | some mv =>
      if body.gameId = "" then (.missingFields, rl', db)
      else if validateMoveStructure mv = false then (.invalidStructure, rl', db)
      else
        match db.games body.gameId with
        | none => (.notFound, rl', db)
        | some game =>
          if game.white_player ≠ userId ∧ game.black_player ≠ userId then
            (.notYourGame, rl', db)
          else
            let moveCount := game.moves.length
            let isWhiteTurn := moveCount % 2 = 0
            let isWhitePlayer := game.white_player = userId
            if isWhiteTurn ≠ isWhitePlayer then (.notYourTurn, rl', db)
            else if game.status ≠ "active" then (.gameNotActive, rl', db)
            else
              let updatedMoves := game.moves ++
                [{ fromSq := mv.fromSq, toSq := mv.toSq,
                   promotion := normPromo mv.promotion, timestamp := now }]
              let g1 := { game with moves := updatedMoves, last_move_at := some now }
              let g2 := match body.timeRemaining with
                | some t =>
                  if isWhitePlayer then { g1 with time_white := max 0 t }
                  else { g1 with time_black := max 0 t }
                | none => g1
              let g3 := match body.gameEnd with
                | some ge =>
                  { g2 with
                    result := some ge.result
                    status := "completed"
                    ended_at := some now
                    elo_change_white := ge.eloChangeWhite.getD 0
                    elo_change_black := ge.eloChangeBlack.getD 0 }
                | none => g2
              let db1 : DB :=
                { db with games := fun id => if id = body.gameId then some g3 else db.games id }
              let db2 := match body.gameEnd with
                | some ge => applyProfileUpdates db1 game ge
                | none => db1
              (.success updatedMoves.length, rl', db2)

/-- Run a list of (userId, time) requests through checkRateLimit from a
given map, recording the verdict of each request. -/
def runRL (rl : RLMap) : List (String × Nat) → List ((String × Nat) × Bool)
  | [] => []
  | req :: rest =>
    let res := checkRateLimit rl req.1 req.2
    (req, res.1) :: runRL res.2 rest

/-- How many requests of the given user were accepted. -/
def countAccepted (log : List ((String × Nat) × Bool)) (u : String) : Nat :=
  (log.filter fun x => x.2 && decide (x.1.1 = u)).length

/-- How many requests of the given user with a timestamp inside
[lo, lo + len) were accepted. -/
def countAcceptedIn (log : List ((String × Nat) × Bool)) (u : String)
    (lo len : Nat) : Nat :=
  (log.filter fun x =>
    x.2 && decide (x.1.1 = u) && decide (lo ≤ x.1.2) && decide (x.1.2 < lo + len)).length

end Server

namespace Client

open Server (StoredMove)

/-- The fields of a game row that syncFromRow reads to decide acceptance. -/
structure ClientRow where
  moves : List StoredMove
  status : String
  result : Option String
  time_white : Int
  time_black : Int
deriving DecidableEq, Repr

/-- syncFromRow from part_003 as a pure transition on the locally known row:
skip an incoming record whose move count is below the local one; skip one
with an equal count and an unchanged status; otherwise adopt it. With no
local row the count reads as 0 and the status comparison is against
undefined, so any incoming record is adopted. -/
def syncFromRow (localRow : Option ClientRow) (incoming : ClientRow) : Option ClientRow :=
  let incomingMoveCount := incoming.moves.length
  let currentMoveCount := (localRow.map fun r => r.moves.length).getD 0
  if incomingMoveCount < currentMoveCount then localRow
  else if incomingMoveCount = currentMoveCount ∧
      (match localRow with
       | some r => decide (incoming.status = r.status)
       | none => false) = true then localRow
  else some incoming

end Client

namespace Fixtures

open Chess Server Client

/-- The double pawn push e2-e4 in array coordinates (white pawns on row 6). -/
def e2e4 : Move where
  fromSq := ⟨6, 4⟩
  toSq := ⟨4, 4⟩
  piece := ⟨.p, .w⟩
  captured := none
  promotion := none
  castling := none
  enPassant := false

/-- The knight development b1-c3. -/
def nb1c3 : Move where
  fromSq := ⟨7, 1⟩
  toSq := ⟨5, 2⟩
  piece := ⟨.n, .w⟩
  captured := none
  promotion := none
  castling := none
  enPassant := false

/-- The initial position with a half-move clock already at 99. -/
def clock99State : GameState := { createInitialState with halfMoveClock := 99 }

/-- A board holding a single white pawn on square (0, 0) and in particular
no black king. -/
def pawnOnlyBoard : Board := fun r c =>
  if r = 0 ∧ c = 0 then some ⟨.p, .w⟩ else none

/-- An empty board. -/
def emptyBoard : Board := fun _ _ => none

/-- A fresh active game between alice (white) and bob (black). -/
def freshGame : GameRow where
  white_player := "alice"
  black_player := "bob"
  moves := []
  status := "active"
  result := none
  time_white := 600
  time_black := 600
  elo_change_white := 0
  elo_change_black := 0
  last_move_at := none
  ended_at := none

def aliceProfile : Profile where
  elo_rating := 800
  games_played := 3
  wins := 1
  losses := 1
  draws := 1

def bobProfile : Profile where
  elo_rating := 820
  games_played := 5
  wins := 2
  losses := 2
  draws := 1

/-- A store holding the fresh game and the two profiles. -/
def freshDB : DB where
  games := fun id => if id = "g1" then some freshGame else none
  profiles := fun uid =>
    if uid = "alice" then some aliceProfile
    else if uid = "bob" then some bobProfile
    else none

/-- An empty rate-limit map. -/
def emptyRL : RLMap := fun _ => none

/-- A rate-limit map in which alice has exhausted her live window. -/
def fullRL : RLMap := fun uid => if uid = "alice" then some ⟨30, 60000⟩ else none

/-- A structurally well-formed but wildly illegal move descriptor: from the
square of the black a8 rook to the square of the white h1 rook. -/
def illegalBody : ReqBody where
  gameId := "g1"
  move := some ⟨⟨0, 0⟩, ⟨7, 7⟩, none⟩
  timeRemaining := none
  gameEnd := none

/-- A submission carrying a game-end claim whose result contradicts the
empty board history. -/
def gameEndBody : ReqBody where
  gameId := "g1"
  move := some ⟨⟨6, 4⟩, ⟨4, 4⟩, none⟩
  timeRemaining := some 573
  gameEnd := some ⟨"black", some (-16), some 16⟩

/-- 60 requests by one user: one at t=0, 29 more at t=50000 (filling the
first window of 30), then 30 at t=60001 (a fresh window). All 59 requests
from t=50000 on are accepted, yet they fall inside one rolling 60-second
interval. -/
def burstTrace : List (String × Nat) :=
  [("u", 0)] ++ List.replicate 29 ("u", 50000) ++ List.replicate 30 ("u", 60001)

/-- A client row with n stub moves and a status. -/
def rowOf (n : Nat) (st : String) : ClientRow where
  moves := List.replicate n ⟨⟨0, 0⟩, ⟨0, 0⟩, none, 0⟩
  status := st
  result := none
  time_white := 600
  time_black := 600

end Fixtures

namespace Chess

/-- Claim C3: every move returned by getLegalMoves, applied to the board via
applyMoveToBoard, yields a board in which the moving side is not in check:
the legality filter is exactly this condition. -/
theorem legalMoves_leave_king_safe (s : GameState) (o : Pos) (m : Move)
    (h : m ∈ getLegalMoves s o) :
    isInCheck (applyMoveToBoard s.board m) s.turn = false := by
  have h2 := (List.mem_filter.mp h).2
  simpa using h2

/-- Witness for C3 at a concrete input: the double push e2-e4 is a legal
move of the initial position and leaves white out of check. -/
theorem legalMoves_leave_king_safe_witness :
    Fixtures.e2e4 ∈ getLegalMoves createInitialState ⟨6, 4⟩ ∧
      isInCheck (applyMoveToBoard createInitialState.board Fixtures.e2e4)
        createInitialState.turn = false :=
  ⟨by decide, legalMoves_leave_king_safe createInitialState ⟨6, 4⟩ Fixtures.e2e4 (by decide)⟩

/-- Claim C9: the initial position has exactly 20 legal moves for the side
to move, and none of them leaves the white king attacked after
application. -/
theorem initial_position_twenty_moves :
    (getAllLegalMoves createInitialState).length = 20 ∧
      (getAllLegalMoves createInitialState).all
        (fun m => !isInCheck (applyMoveToBoard createInitialState.board m) PieceColor.w) = true := by
  decide

/-- Counterexample for C10 as stated: on a board with no black king but a
white pawn on square (0, 0), findKing yields the sentinel, yet isInCheck
returns true rather than false, because the pawn-attack probe from (-1, -1)
lands on (0, 0). -/
theorem kingless_isInCheck_true :
    findKing Fixtures.pawnOnlyBoard PieceColor.b = ⟨-1, -1⟩ ∧
      isInCheck Fixtures.pawnOnlyBoard PieceColor.b = true := by
  decide

/-- Claim C10 (amended): isInCheck is total on every board; when the board
holds no king of the queried color, findKing returns the sentinel (-1, -1)
and isInCheck returns the attack status of the sentinel square, which every
probe reads through an inBounds guard - but that status is not always
false. -/
theorem isInCheck_total_kingless (board : Board) (color : PieceColor)
    (h : ∀ r c : Int, board r c ≠ some ⟨.k, color⟩) :
    findKing board color = ⟨-1, -1⟩ ∧
      isInCheck board color =
        isSquareAttacked board ⟨-1, -1⟩ (if color = .w then .b else .w) := by
  have hfind : allSquares.find?
      (fun pos => decide (board pos.row pos.col = some ⟨.k, color⟩)) = none := by
    rw [List.find?_eq_none]
    intro a _
    simp only [decide_eq_true_eq]
    exact h a.row a.col
  have hk : findKing board color = ⟨-1, -1⟩ := by
    unfold findKing
    rw [hfind]
  refine ⟨hk, ?_⟩
  unfold isInCheck
  rw [hk]

/-- Witness for the amended C10 at a concrete input: the empty board holds
no black king, findKing yields the sentinel and isInCheck agrees with the
attack status of the sentinel square. -/
theorem isInCheck_total_kingless_witness :
    findKing Fixtures.emptyBoard PieceColor.b = ⟨-1, -1⟩ ∧
      isInCheck Fixtures.emptyBoard PieceColor.b =
        isSquareAttacked Fixtures.emptyBoard ⟨-1, -1⟩
          (if PieceColor.b = PieceColor.w then PieceColor.b else PieceColor.w) :=
  isInCheck_total_kingless Fixtures.emptyBoard PieceColor.b
    (fun _ _ => by simp [Fixtures.emptyBoard])

theorem makeMove_castling (s : GameState) (m : Move) :
    (makeMove s m).castling = updateCastlingRights s.castling m := by
  simp only [makeMove]
  split_ifs <;> rfl

theorem makeMove_halfMoveClock (s : GameState) (m : Move) :
    (makeMove s m).halfMoveClock = (makeMoveBase s m).halfMoveClock := by
  simp only [makeMove]
  split_ifs <;> rfl

theorem makeMoveBase_halfMoveClock (s : GameState) (m : Move) :
    (makeMoveBase s m).halfMoveClock =
      if m.piece.type = .p ∨ m.captured.isSome then 0 else s.halfMoveClock + 1 := rfl

theorem makeMove_moveHistory (s : GameState) (m : Move) :
    (makeMove s m).moveHistory = s.moveHistory ++ [m] := by
  simp only [makeMove]
  split_ifs <;> rfl

theorem makeMove_board (s : GameState) (m : Move) :
    (makeMove s m).board = applyMoveToBoard s.board m := by
  simp only [makeMove]
  split_ifs <;> rfl

theorem makeMove_turn (s : GameState) (m : Move) :
    (makeMove s m).turn = (makeMoveBase s m).turn := by
  simp only [makeMove]
  split_ifs <;> rfl

theorem makeMove_enPassantTarget (s : GameState) (m : Move) :
    (makeMove s m).enPassantTarget = (makeMoveBase s m).enPassantTarget := by
  simp only [makeMove]
  split_ifs <;> rfl

/-- getAllLegalMoves reads only the board, turn, castling rights and
en-passant target; status and winner do not influence move generation. -/
theorem getAllLegalMoves_status (base : GameState) (st : GameStatus)
    (wn : Option PieceColor) :
    getAllLegalMoves { base with status := st, winner := wn } = getAllLegalMoves base := by
  cases base
  rfl

theorem clearRightK_le (cr : CastleRights) :
    (clearRightK cr).k ≤ cr.k ∧ (clearRightK cr).q ≤ cr.q := by
  cases cr
  simp [clearRightK]

theorem clearRightQ_le (cr : CastleRights) :
    (clearRightQ cr).k ≤ cr.k ∧ (clearRightQ cr).q ≤ cr.q := by
  cases cr
  simp [clearRightQ]

/-- Componentwise comparison of castling rights. -/
def rightsLE (a c : CastlingState) : Prop :=
  a.w.k ≤ c.w.k ∧ a.w.q ≤ c.w.q ∧ a.b.k ≤ c.b.k ∧ a.b.q ≤ c.b.q

theorem rightsLE_refl (a : CastlingState) : rightsLE a a :=
  ⟨le_refl _, le_refl _, le_refl _, le_refl _⟩

theorem rightsLE_trans {a c e : CastlingState} (h1 : rightsLE a c) (h2 : rightsLE c e) :
    rightsLE a e :=
  ⟨le_trans h1.1 h2.1, le_trans h1.2.1 h2.2.1,
   le_trans h1.2.2.1 h2.2.2.1, le_trans h1.2.2.2 h2.2.2.2⟩

theorem setColorRights_le (cs : CastlingState) (col : PieceColor)
    (f : CastleRights → CastleRights)
    (hf : ∀ cr, (f cr).k ≤ cr.k ∧ (f cr).q ≤ cr.q) :
    rightsLE (setColorRights cs col f) cs := by
  cases col
  · exact ⟨(hf _).1, (hf _).2, le_refl _, le_refl _⟩
  · exact ⟨le_refl _, le_refl _, (hf _).1, (hf _).2⟩

theorem ite_rightsLE (P : Prop) [Decidable P] (a c : CastlingState)
    (h : rightsLE a c) : rightsLE (if P then a else c) c := by
  split_ifs
  · exact h
  · exact rightsLE_refl c

theorem castleAfterKingMove_le (cs : CastlingState) (m : Move) :
    rightsLE (castleAfterKingMove cs m) cs :=
  ite_rightsLE _ _ _ (setColorRights_le _ _ _ (fun cr => ⟨Bool.false_le _, Bool.false_le _⟩))

theorem castleAfterRookFrom0_le (cs : CastlingState) (m : Move) :
    rightsLE (castleAfterRookFrom0 cs m) cs :=
  ite_rightsLE _ _ _ (setColorRights_le _ _ _ (fun cr => ⟨le_refl _, Bool.false_le _⟩))

theorem castleAfterRookFrom7_le (cs : CastlingState) (m : Move) :
    rightsLE (castleAfterRookFrom7 cs m) cs :=
  ite_rightsLE _ _ _ (setColorRights_le _ _ _ (fun cr => ⟨Bool.false_le _, le_refl _⟩))

theorem castleCapBQ_le (cs : CastlingState) (m : Move) :
    rightsLE (castleCapBQ cs m) cs :=
  ite_rightsLE _ _ _ ⟨le_refl _, le_refl _, le_refl _, Bool.false_le _⟩

theorem castleCapBK_le (cs : CastlingState) (m : Move) :
    rightsLE (castleCapBK cs m) cs :=
  ite_rightsLE _ _ _ ⟨le_refl _, le_refl _, Bool.false_le _, le_refl _⟩

theorem castleCapWQ_le (cs : CastlingState) (m : Move) :
    rightsLE (castleCapWQ cs m) cs :=
  ite_rightsLE _ _ _ ⟨le_refl _, Bool.false_le _, le_refl _, le_refl _⟩

theorem castleCapWK_le (cs : CastlingState) (m : Move) :
    rightsLE (castleCapWK cs m) cs :=
  ite_rightsLE _ _ _ ⟨Bool.false_le _, le_refl _, le_refl _, le_refl _⟩

/-- The castling-rights update of makeMove only ever clears rights. -/
theorem updateCastlingRights_le (cs : CastlingState) (m : Move) :
    rightsLE (updateCastlingRights cs m) cs := by
  unfold updateCastlingRights
  exact rightsLE_trans (castleCapWK_le _ _) (rightsLE_trans (castleCapWQ_le _ _)
    (rightsLE_trans (castleCapBK_le _ _) (rightsLE_trans (castleCapBQ_le _ _)
      (rightsLE_trans (castleAfterRookFrom7_le _ _) (rightsLE_trans
        (castleAfterRookFrom0_le _ _) (castleAfterKingMove_le _ _))))))

/-- Claim C7: castling rights are monotonically non-increasing under
makeMove; on Bool, x le y means x = true implies y = true, so each of the
four rights of the result implies the corresponding right of the input
state, and in particular a rook leaving and later returning to its home
square cannot restore a right once lost. -/
theorem makeMove_castling_monotone (s : GameState) (m : Move) :
    (makeMove s m).castling.w.k ≤ s.castling.w.k ∧
      (makeMove s m).castling.w.q ≤ s.castling.w.q ∧
      (makeMove s m).castling.b.k ≤ s.castling.b.k ∧
      (makeMove s m).castling.b.q ≤ s.castling.b.q := by
  rw [makeMove_castling]
  exact updateCastlingRights_le s.castling m

/-- Claim C8: makeMove resets the half-move clock to 0 on a pawn move or a
capture and increments it otherwise, and when the resulting clock has
reached 100 while the new side to move still has a legal move, the
resulting status is draw. -/
theorem makeMove_halfMoveClock_draw (s : GameState) (m : Move) :
    ((makeMove s m).halfMoveClock =
      if m.piece.type = .p ∨ m.captured.isSome then 0 else s.halfMoveClock + 1) ∧
    (getAllLegalMoves (makeMove s m) ≠ [] → 100 ≤ (makeMove s m).halfMoveClock →
      (makeMove s m).status = .draw) := by
  refine ⟨by rw [makeMove_halfMoveClock, makeMoveBase_halfMoveClock], ?_⟩
  intro hne hclk
  rw [makeMove_halfMoveClock] at hclk
  simp only [makeMove] at hne ⊢
  split_ifs at hne ⊢ with h1 h2 h3
  all_goals try rfl
  all_goals try exact absurd hclk h3
  all_goals rw [getAllLegalMoves_status] at hne
  all_goals rw [List.isEmpty_iff] at h1
  all_goals exact absurd h1 hne

/-- Witness for C8 at a concrete input: from the initial position with the
half-move clock at 99, the quiet knight move b1-c3 brings the clock to 100
and the resulting status is draw. -/
theorem makeMove_halfMoveClock_draw_witness :
    ((makeMove Fixtures.clock99State Fixtures.nb1c3).halfMoveClock =
      if Fixtures.nb1c3.piece.type = .p ∨ Fixtures.nb1c3.captured.isSome then 0
      else Fixtures.clock99State.halfMoveClock + 1) ∧
    (makeMove Fixtures.clock99State Fixtures.nb1c3).status = .draw :=
  ⟨(makeMove_halfMoveClock_draw Fixtures.clock99State Fixtures.nb1c3).1,
   (makeMove_halfMoveClock_draw Fixtures.clock99State Fixtures.nb1c3).2
     (by decide) (by decide)⟩

end Chess

namespace Client

/-- syncFromRow on a known local row, written with propositional
conditions. -/
theorem syncFromRow_some (lr r : ClientRow) :
    syncFromRow (some lr) r =
      if r.moves.length < lr.moves.length then some lr
      else if r.moves.length = lr.moves.length ∧ r.status = lr.status then some lr
      else some r := by
  simp [syncFromRow]

/-- syncFromRow with no local row adopts any incoming record. -/
theorem syncFromRow_none (r : ClientRow) : syncFromRow none r = some r := by
  simp [syncFromRow]

/-- Claim C4: the reconciliation function rejects an incoming record with a
lower move count, rejects one with an equal count and unchanged status,
accepts one with an equal count and a different status; consequently
feeding it the same record twice is idempotent, and an older record
arriving after a newer one is discarded. -/
theorem syncFromRow_convergence :
    (∀ lr r : ClientRow,
      (r.moves.length < lr.moves.length → syncFromRow (some lr) r = some lr) ∧
      (r.moves.length = lr.moves.length → r.status = lr.status →
        syncFromRow (some lr) r = some lr) ∧
      (r.moves.length = lr.moves.length → r.status ≠ lr.status →
        syncFromRow (some lr) r = some r)) ∧
    (∀ (l : Option ClientRow) (r : ClientRow),
      syncFromRow (syncFromRow l r) r = syncFromRow l r) ∧
    (∀ (l : Option ClientRow) (a c : ClientRow),
      a.moves.length < c.moves.length →
        syncFromRow (syncFromRow l c) a = syncFromRow l c) := by
  refine ⟨fun lr r => ⟨?_, ?_, ?_⟩, ?_, ?_⟩
  · intro h
    rw [syncFromRow_some, if_pos h]
  · intro h1 h2
    rw [syncFromRow_some, if_neg (by omega), if_pos ⟨h1, h2⟩]
  · intro h1 h2
    rw [syncFromRow_some, if_neg (by omega), if_neg (by exact fun hc => h2 hc.2)]
  · intro l r
    match l with
    | none =>
      rw [syncFromRow_none, syncFromRow_some]
      rw [if_neg (by omega), if_pos ⟨rfl, rfl⟩]
    | some lr =>
      rw [syncFromRow_some]
      split_ifs with h1 h2
      · rw [syncFromRow_some, if_pos h1]
      · rw [syncFromRow_some, if_neg (by omega), if_pos h2]
      · rw [syncFromRow_some, if_neg (by omega), if_pos ⟨rfl, rfl⟩]
  · intro l a c hlt
    match l with
    | none =>
      rw [syncFromRow_none, syncFromRow_some, if_pos hlt]
    | some lr =>
      rw [syncFromRow_some]
      split_ifs with h1 h2
      · rw [syncFromRow_some, if_pos (by omega)]
      · rw [syncFromRow_some, if_pos (by omega)]
      · rw [syncFromRow_some, if_pos hlt]

/-- Witness for C4 at concrete records: a stale record is rejected, a
duplicate delivery is a no-op, and a newer record followed by an older one
leaves the newer one in place. -/
theorem syncFromRow_convergence_witness :
    syncFromRow (some (Fixtures.rowOf 2 "active")) (Fixtures.rowOf 1 "active") =
      some (Fixtures.rowOf 2 "active") ∧
    syncFromRow (syncFromRow (some (Fixtures.rowOf 1 "active")) (Fixtures.rowOf 2 "completed"))
        (Fixtures.rowOf 2 "completed") =
      syncFromRow (some (Fixtures.rowOf 1 "active")) (Fixtures.rowOf 2 "completed") ∧
    syncFromRow (syncFromRow (some (Fixtures.rowOf 1 "active")) (Fixtures.rowOf 3 "active"))
        (Fixtures.rowOf 2 "active") =
      syncFromRow (some (Fixtures.rowOf 1 "active")) (Fixtures.rowOf 3 "active") :=
  ⟨(syncFromRow_convergence.1 (Fixtures.rowOf 2 "active") (Fixtures.rowOf 1 "active")).1
      (by decide),
   syncFromRow_convergence.2.1 (some (Fixtures.rowOf 1 "active")) (Fixtures.rowOf 2 "completed"),
   syncFromRow_convergence.2.2 (some (Fixtures.rowOf 1 "active")) (Fixtures.rowOf 2 "active")
      (Fixtures.rowOf 3 "active") (by decide)⟩

end Client

namespace Server

theorem runRL_cons (rl : RLMap) (v : String) (t : Nat) (rest : List (String × Nat)) :
    runRL rl ((v, t) :: rest) =
      ((v, t), (checkRateLimit rl v t).1) :: runRL (checkRateLimit rl v t).2 rest := rfl

theorem countAccepted_cons (v : String) (t : Nat) (ok : Bool)
    (log : List ((String × Nat) × Bool)) (u : String) :
    countAccepted (((v, t), ok) :: log) u =
      (if ok = true ∧ v = u then 1 else 0) + countAccepted log u := by
  cases ok <;> by_cases hv : v = u <;>
    simp [countAccepted, List.filter_cons, hv] <;> omega

theorem countAccepted_cons_hit (v : String) (t : Nat)
    (log : List ((String × Nat) × Bool)) (u : String) (h : v = u) :
    countAccepted (((v, t), true) :: log) u = 1 + countAccepted log u := by
  rw [countAccepted_cons, if_pos ⟨rfl, h⟩]

theorem countAccepted_cons_rejected (v : String) (t : Nat)
    (log : List ((String × Nat) × Bool)) (u : String) :
    countAccepted (((v, t), false) :: log) u = countAccepted log u := by
  rw [countAccepted_cons, if_neg (fun hc => Bool.false_ne_true hc.1)]
  omega

theorem countAccepted_cons_other (v : String) (t : Nat) (ok : Bool)
    (log : List ((String × Nat) × Bool)) (u : String) (h : v ≠ u) :
    countAccepted (((v, t), ok) :: log) u = countAccepted log u := by
  rw [countAccepted_cons, if_neg (fun hc => h hc.2)]
  omega

/-- Requests of other users leave a given key of the map untouched. -/
theorem checkRateLimit_other (rl : RLMap) (v : String) (t : Nat) (u : String)
    (h : v ≠ u) : (checkRateLimit rl v t).2 u = rl u := by
  rcases hrv : rl v with _ | e <;> simp only [checkRateLimit, hrv]
  · simp [Ne.symm h]
  · split_ifs <;> simp [Ne.symm h]

/-- checkRateLimit with no live entry: accept and open a window. -/
theorem checkRateLimit_none (rl : RLMap) (u : String) (t : Nat) (h : rl u = none) :
    checkRateLimit rl u t =
      (true, fun uid => if uid = u then some ⟨1, t + RATE_WINDOW⟩ else rl uid) := by
  simp only [checkRateLimit, h]

/-- checkRateLimit inside a live window at the cap: reject, no mutation. -/
theorem checkRateLimit_live_full (rl : RLMap) (u : String) (t : Nat) (e : RateEntry)
    (h : rl u = some e) (h2 : ¬ t > e.resetAt) (h3 : e.count ≥ 30) :
    checkRateLimit rl u t = (false, rl) := by
  simp only [checkRateLimit, h, if_neg h2, if_pos h3]

/-- checkRateLimit inside a live window below the cap: accept and count. -/
theorem checkRateLimit_live_ok (rl : RLMap) (u : String) (t : Nat) (e : RateEntry)
    (h : rl u = some e) (h2 : ¬ t > e.resetAt) (h3 : ¬ e.count ≥ 30) :
    checkRateLimit rl u t =
      (true, fun uid => if uid = u then some ⟨e.count + 1, e.resetAt⟩ else rl uid) := by
  simp only [checkRateLimit, h, if_neg h2, if_neg h3]

/-- The in-window bound of the limiter: starting from a map with no live
entry for the user, as long as every request of that user falls inside one
interval [t0, t0 + 60000], at most 30 of them are accepted; a live entry
whose window covers the interval bounds further accepts by 30 minus its
count. -/
theorem runRL_window_bound (u : String) (t0 : Nat) :
    ∀ (reqs : List (String × Nat)) (rl : RLMap),
      (∀ req ∈ reqs, req.1 = u → t0 ≤ req.2 ∧ req.2 ≤ t0 + RATE_WINDOW) →
      (rl u = none → countAccepted (runRL rl reqs) u ≤ 30) ∧
      (∀ e, rl u = some e → t0 + RATE_WINDOW ≤ e.resetAt →
        countAccepted (runRL rl reqs) u ≤ 30 - e.count) := by
  intro reqs
  induction reqs with
  | nil =>
    intro rl _
    refine ⟨fun _ => ?_, fun e _ _ => ?_⟩ <;> simp [runRL, countAccepted]
  | cons req rest ih =>
    obtain ⟨v, t⟩ := req
    intro rl hreq
    have hrest : ∀ r ∈ rest, r.1 = u → t0 ≤ r.2 ∧ r.2 ≤ t0 + RATE_WINDOW :=
      fun r hr => hreq r (List.mem_cons_of_mem _ hr)
    by_cases hv : v = u
    · subst hv
      have hb := hreq (v, t) (List.mem_cons_self _ _) rfl
      simp only at hb
      refine ⟨fun h0 => ?_, fun e he hreset => ?_⟩
      · rw [runRL_cons, checkRateLimit_none rl v t h0, countAccepted_cons_hit _ _ _ _ rfl]
        dsimp only
        have hkey : (fun uid => if uid = v then some (⟨1, t + RATE_WINDOW⟩ : RateEntry)
            else rl uid) v = some ⟨1, t + RATE_WINDOW⟩ := by simp
        have hr2 := (ih (fun uid => if uid = v then some ⟨1, t + RATE_WINDOW⟩ else rl uid)
          hrest).2 ⟨1, t + RATE_WINDOW⟩ hkey (by simp only; omega)
        simp only at hr2
        omega
      · have hnot : ¬ t > e.resetAt := by omega
        by_cases hcnt : e.count ≥ 30
        · rw [runRL_cons, checkRateLimit_live_full rl v t e he hnot hcnt,
            countAccepted_cons_rejected]
          dsimp only
          have hr2 := (ih rl hrest).2 e he hreset
          omega
        · rw [runRL_cons, checkRateLimit_live_ok rl v t e he hnot hcnt,
            countAccepted_cons_hit _ _ _ _ rfl]
          dsimp only
          have hkey : (fun uid => if uid = v then some (⟨e.count + 1, e.resetAt⟩ : RateEntry)
              else rl uid) v = some ⟨e.count + 1, e.resetAt⟩ := by simp
          have hr2 := (ih (fun uid => if uid = v then some ⟨e.count + 1, e.resetAt⟩ else rl uid)
            hrest).2 ⟨e.count + 1, e.resetAt⟩ hkey (by simp only; omega)
          simp only at hr2
          omega
    · have hkey : (checkRateLimit rl v t).2 u = rl u := checkRateLimit_other rl v t u hv
      refine ⟨fun h0 => ?_, fun e he hreset => ?_⟩
      · rw [runRL_cons, countAccepted_cons_other _ _ _ _ _ hv]
        exact (ih ((checkRateLimit rl v t).2) hrest).1 (by rw [hkey]; exact h0)
      · rw [runRL_cons, countAccepted_cons_other _ _ _ _ _ hv]
        exact (ih ((checkRateLimit rl v t).2) hrest).2 e (by rw [hkey]; exact he) hreset

end Server

namespace Server

/-- Counterexample for C6 as stated: the limiter window is anchored at the
first request, not rolling. In the burst trace, 29 accepted submissions at
t = 50000 (inside the window opened at t = 0) and 30 accepted submissions
at t = 60001 (a fresh window) all fall inside the rolling 60-second
interval [50000, 110000), so that interval carries 59 accepted submissions,
far more than 30. -/
theorem rateLimit_rolling_window_exceeded :
    countAcceptedIn (runRL Fixtures.emptyRL Fixtures.burstTrace) "u" 50000 60000 = 59 ∧
      30 < countAcceptedIn (runRL Fixtures.emptyRL Fixtures.burstTrace) "u" 50000 60000 := by
  decide

/-- Claim C6 (amended): the limiter enforces a fixed 60000 ms window opened
at the first submission: whenever all of a participant's submissions fall
inside one such interval, at most 30 of them are accepted (separate windows
can admit more inside a rolling 60-second span); and a rate-limited request
returns RateLimited with both the limiter map and the store unchanged,
before any read or mutation of the game record. -/
theorem rateLimit_fixed_window_and_no_mutation :
    (∀ (reqs : List (String × Nat)) (rl : RLMap) (u : String) (t0 : Nat),
      rl u = none →
      (∀ req ∈ reqs, req.1 = u → t0 ≤ req.2 ∧ req.2 ≤ t0 + RATE_WINDOW) →
      countAccepted (runRL rl reqs) u ≤ 30) ∧
    (∀ (rl : RLMap) (db : DB) (userId : String) (now : Nat) (body : ReqBody),
      (checkRateLimit rl userId now).1 = false →
      handleValidateMove rl db userId now body = (.rateLimited, rl, db)) := by
  constructor
  · intro reqs rl u t0 hnone hin
    exact (runRL_window_bound u t0 reqs rl hin).1 hnone
  · intro rl db userId now body h
    simp only [handleValidateMove]
    rw [if_pos h]

/-- Witness for the amended C6: a 40-request burst inside one window gets
at most 30 acceptances, and a request against an exhausted window leaves
the store and limiter untouched. -/
theorem rateLimit_fixed_window_witness :
    countAccepted (runRL Fixtures.emptyRL (List.replicate 40 ("u", 5))) "u" ≤ 30 ∧
      handleValidateMove Fixtures.fullRL Fixtures.freshDB "alice" 0 Fixtures.illegalBody =
        (.rateLimited, Fixtures.fullRL, Fixtures.freshDB) :=
  ⟨rateLimit_fixed_window_and_no_mutation.1 (List.replicate 40 ("u", 5))
      Fixtures.emptyRL "u" 5 rfl (by decide),
   rateLimit_fixed_window_and_no_mutation.2 Fixtures.fullRL Fixtures.freshDB
      "alice" 0 Fixtures.illegalBody (by decide)⟩

/-- Claim C1 (code-level divergence): a submission that passes the
participant, turn and active-status checks is appended to the stored move
list even when the descriptor matches no entry of getLegalMoves computed on
the state replayed from the stored list. Concretely: on the fresh game the
stored list is empty, the replayed state is the initial position, the
origin (0,0) holds a black rook while white is to move, so its legal-move
list is empty; the handler nevertheless answers success and stores the
move. -/
theorem handler_accepts_illegal_move :
    (handleValidateMove Fixtures.emptyRL Fixtures.freshDB "alice" 0 Fixtures.illegalBody).1 =
      .success 1 ∧
    ((handleValidateMove Fixtures.emptyRL Fixtures.freshDB "alice" 0
        Fixtures.illegalBody).2.2.games "g1") =
      some { Fixtures.freshGame with
        moves := [⟨⟨0, 0⟩, ⟨7, 7⟩, none, 0⟩]
        last_move_at := some 0 } ∧
    Chess.getLegalMoves (Chess.replayMoves []) ⟨0, 0⟩ = [] := by
  decide

end Server

namespace Server

theorem updateOneProfile_games (d : DB) (game : GameRow) (ge : GameEndClaim)
    (p : String) : (updateOneProfile d game ge p).games = d.games := by
  unfold updateOneProfile
  rcases hd : d.profiles p with _ | prof <;> simp [hd]

theorem applyProfileUpdates_games (d : DB) (game : GameRow) (ge : GameEndClaim) :
    (applyProfileUpdates d game ge).games = d.games := by
  unfold applyProfileUpdates
  simp only [List.foldl_cons, List.foldl_nil]
  rw [updateOneProfile_games, updateOneProfile_games]

theorem updateOneProfile_profiles_other (d : DB) (game : GameRow) (ge : GameEndClaim)
    (p q : String) (h : p ≠ q) :
    (updateOneProfile d game ge q).profiles p = d.profiles p := by
  unfold updateOneProfile
  rcases hd : d.profiles q with _ | prof <;> simp [hd, h]

theorem updateOneProfile_profiles_white (d : DB) (game : GameRow) (ge : GameEndClaim) :
    (updateOneProfile d game ge game.white_player).profiles game.white_player =
      (d.profiles game.white_player).map (profileAfter ge true) := by
  unfold updateOneProfile
  rcases hd : d.profiles game.white_player with _ | prof <;> simp [hd, profileAfter]

theorem updateOneProfile_profiles_black (d : DB) (game : GameRow) (ge : GameEndClaim)
    (hdist : game.white_player ≠ game.black_player) :
    (updateOneProfile d game ge game.black_player).profiles game.black_player =
      (d.profiles game.black_player).map (profileAfter ge false) := by
  unfold updateOneProfile
  rcases hd : d.profiles game.black_player with _ | prof <;>
    simp [hd, profileAfter, Ne.symm hdist]

theorem applyProfileUpdates_profiles_white (d : DB) (game : GameRow) (ge : GameEndClaim)
    (hdist : game.white_player ≠ game.black_player) :
    (applyProfileUpdates d game ge).profiles game.white_player =
      (d.profiles game.white_player).map (profileAfter ge true) := by
  unfold applyProfileUpdates
  simp only [List.foldl_cons, List.foldl_nil]
  rw [updateOneProfile_profiles_other _ _ _ _ _ hdist, updateOneProfile_profiles_white]

theorem applyProfileUpdates_profiles_black (d : DB) (game : GameRow) (ge : GameEndClaim)
    (hdist : game.white_player ≠ game.black_player) :
    (applyProfileUpdates d game ge).profiles game.black_player =
      (d.profiles game.black_player).map (profileAfter ge false) := by
  unfold applyProfileUpdates
  simp only [List.foldl_cons, List.foldl_nil]
  rw [updateOneProfile_profiles_black _ _ _ hdist,
    updateOneProfile_profiles_other _ _ _ _ _ (Ne.symm hdist)]

end Server

namespace Server

/-- Claim C5: a submission that passes the participant, turn and
active-status checks and carries a gameEnd claim transitions the stored
record to status completed with the claimed result, records the claimed
rating deltas on the record, and applies them to both players profiles,
with no condition whatsoever relating the claim to the board. -/
theorem gameEnd_claim_applied
    (rl : RLMap) (db : DB) (userId : String) (now : Nat) (body : ReqBody)
    (mv : WireMove) (game : GameRow) (ge : GameEndClaim)
    (hrate : (checkRateLimit rl userId now).1 = true)
    (hmv : body.move = some mv)
    (hgid : ¬ body.gameId = "")
    (hstruct : validateMoveStructure mv = true)
    (hgame : db.games body.gameId = some game)
    (hpart : game.white_player = userId ∨ game.black_player = userId)
    (hturn : (game.moves.length % 2 = 0) ↔ (game.white_player = userId))
    (hact : game.status = "active")
    (hge : body.gameEnd = some ge)
    (hdist : game.white_player ≠ game.black_player) :
    ∃ g' : GameRow,
      (handleValidateMove rl db userId now body).2.2.games body.gameId = some g' ∧
      g'.status = "completed" ∧
      g'.result = some ge.result ∧
      g'.elo_change_white = ge.eloChangeWhite.getD 0 ∧
      g'.elo_change_black = ge.eloChangeBlack.getD 0 ∧
      g'.moves = game.moves ++ [⟨mv.fromSq, mv.toSq, normPromo mv.promotion, now⟩] ∧
      (handleValidateMove rl db userId now body).2.2.profiles game.white_player =
        (db.profiles game.white_player).map (profileAfter ge true) ∧
      (handleValidateMove rl db userId now body).2.2.profiles game.black_player =
        (db.profiles game.black_player).map (profileAfter ge false) := by
  have hpar2 : ¬(game.white_player ≠ userId ∧ game.black_player ≠ userId) :=
    fun hc => hpart.elim (fun hwp => hc.1 hwp) (fun hbp => hc.2 hbp)
  have hturn2 : ¬((game.moves.length % 2 = 0) ≠ (game.white_player = userId)) :=
    not_not_intro (propext hturn)
  have hact2 : ¬(game.status ≠ "active") := not_not_intro hact
  have htf : ¬ (true = false) := by simp
  rcases htr : body.timeRemaining with _ | tr
  · simp only [handleValidateMove, hrate, hmv, hgame, hge, hstruct, htr, if_neg hgid,
      if_neg hpar2, if_neg hturn2, if_neg hact2, if_neg htf]
    refine ⟨{ game with
        moves := game.moves ++ [⟨mv.fromSq, mv.toSq, normPromo mv.promotion, now⟩]
        status := "completed"
        result := some ge.result
        elo_change_white := ge.eloChangeWhite.getD 0
        elo_change_black := ge.eloChangeBlack.getD 0
        last_move_at := some now
        ended_at := some now }, ?_, rfl, rfl, rfl, rfl, rfl, ?_, ?_⟩
    · rw [applyProfileUpdates_games]
      simp
    · rw [applyProfileUpdates_profiles_white _ _ _ hdist]
    · rw [applyProfileUpdates_profiles_black _ _ _ hdist]
  · by_cases hw : game.white_player = userId
    · simp only [handleValidateMove, hrate, hmv, hgame, hge, hstruct, htr, if_neg hgid,
        if_neg hpar2, if_neg hturn2, if_neg hact2, if_neg htf, if_pos hw]
      refine ⟨{ game with
          moves := game.moves ++ [⟨mv.fromSq, mv.toSq, normPromo mv.promotion, now⟩]
          time_white := max 0 tr
          status := "completed"
          result := some ge.result
          elo_change_white := ge.eloChangeWhite.getD 0
          elo_change_black := ge.eloChangeBlack.getD 0
          last_move_at := some now
          ended_at := some now }, ?_, rfl, rfl, rfl, rfl, rfl, ?_, ?_⟩
      · rw [applyProfileUpdates_games]
        simp
      · rw [applyProfileUpdates_profiles_white _ _ _ hdist]
      · rw [applyProfileUpdates_profiles_black _ _ _ hdist]
    · simp only [handleValidateMove, hrate, hmv, hgame, hge, hstruct, htr, if_neg hgid,
        if_neg hpar2, if_neg hturn2, if_neg hact2, if_neg htf, if_neg hw]
      refine ⟨{ game with
          moves := game.moves ++ [⟨mv.fromSq, mv.toSq, normPromo mv.promotion, now⟩]
          time_black := max 0 tr
          status := "completed"
          result := some ge.result
          elo_change_white := ge.eloChangeWhite.getD 0
          elo_change_black := ge.eloChangeBlack.getD 0
          last_move_at := some now
          ended_at := some now }, ?_, rfl, rfl, rfl, rfl, rfl, ?_, ?_⟩
      · rw [applyProfileUpdates_games]
        simp
      · rw [applyProfileUpdates_profiles_white _ _ _ hdist]
      · rw [applyProfileUpdates_profiles_black _ _ _ hdist]

end Server

namespace Server

/-- Witness for C5 at a concrete input: on the fresh game, alice submits a
first move together with a game-end claim of a black win and -16/+16
rating deltas; the record completes with that result and both profiles
absorb the deltas. -/
theorem gameEnd_claim_applied_witness :
    ∃ g' : GameRow,
      (handleValidateMove Fixtures.emptyRL Fixtures.freshDB "alice" 0
          Fixtures.gameEndBody).2.2.games "g1" = some g' ∧
      g'.status = "completed" ∧
      g'.result = some "black" ∧
      g'.elo_change_white = -16 ∧
      g'.elo_change_black = 16 ∧
      g'.moves = Fixtures.freshGame.moves ++ [⟨⟨6, 4⟩, ⟨4, 4⟩, normPromo none, 0⟩] ∧
      (handleValidateMove Fixtures.emptyRL Fixtures.freshDB "alice" 0
          Fixtures.gameEndBody).2.2.profiles "alice" =
        (Fixtures.freshDB.profiles "alice").map
          (profileAfter ⟨"black", some (-16), some 16⟩ true) ∧
      (handleValidateMove Fixtures.emptyRL Fixtures.freshDB "alice" 0
          Fixtures.gameEndBody).2.2.profiles "bob" =
        (Fixtures.freshDB.profiles "bob").map
          (profileAfter ⟨"black", some (-16), some 16⟩ false) :=
  gameEnd_claim_applied Fixtures.emptyRL Fixtures.freshDB "alice" 0 Fixtures.gameEndBody
    ⟨⟨6, 4⟩, ⟨4, 4⟩, none⟩ Fixtures.freshGame ⟨"black", some (-16), some 16⟩
    (by decide) rfl (by decide) (by decide) (by decide) (Or.inl rfl) (by decide)
    rfl rfl (by decide)

end Server

namespace Chess

/-- Forward characterization of pawnRaw membership: every element is one of
the six generated shapes, together with the guards of its branch. -/
theorem mem_pawnRaw {board : Board} {ep : Option Pos} {o : Pos} {pc : Piece} {m : Move}
    (h : m ∈ pawnRaw board ep o pc) :
    (board (o.row + pawnDir pc) o.col = none ∧ o.row + pawnDir pc ≠ pawnPromoRow pc ∧
      m = mkMove board o pc ⟨o.row + pawnDir pc, o.col⟩) ∨
    (board (o.row + pawnDir pc) o.col = none ∧ o.row + pawnDir pc = pawnPromoRow pc ∧
      ∃ pr ∈ promoTypes,
        m = { mkMove board o pc ⟨o.row + pawnDir pc, o.col⟩ with promotion := some pr }) ∨
    (board (o.row + pawnDir pc) o.col = none ∧ o.row = pawnStartRow pc ∧
      board (o.row + 2 * pawnDir pc) o.col = none ∧
      m = mkMove board o pc ⟨o.row + 2 * pawnDir pc, o.col⟩) ∨
    (∃ dc : Int, (dc = -1 ∨ dc = 1) ∧
      (∃ tgt, board (o.row + pawnDir pc) (o.col + dc) = some tgt ∧ tgt.color ≠ pc.color) ∧
      o.row + pawnDir pc ≠ pawnPromoRow pc ∧
      m = mkMove board o pc ⟨o.row + pawnDir pc, o.col + dc⟩) ∨
    (∃ dc : Int, (dc = -1 ∨ dc = 1) ∧
      (∃ tgt, board (o.row + pawnDir pc) (o.col + dc) = some tgt ∧ tgt.color ≠ pc.color) ∧
      o.row + pawnDir pc = pawnPromoRow pc ∧
      ∃ pr ∈ promoTypes,
        m = { mkMove board o pc ⟨o.row + pawnDir pc, o.col + dc⟩ with promotion := some pr }) ∨
    (∃ dc : Int, (dc = -1 ∨ dc = 1) ∧
      ep = some ⟨o.row + pawnDir pc, o.col + dc⟩ ∧
      m = { mkMove board o pc ⟨o.row + pawnDir pc, o.col + dc⟩ with
            enPassant := true, captured := board o.row (o.col + dc) }) := by
  unfold pawnRaw at h
  rcases List.mem_append.mp h with h | h
  · split at h
    case isTrue hg =>
      rcases List.mem_append.mp h with h | h
      · split at h
        case isTrue hpr =>
          obtain ⟨pr, hprm, rfl⟩ := List.mem_map.mp h
          exact Or.inr (Or.inl ⟨hg.2, hpr, pr, hprm, rfl⟩)
        case isFalse hpr =>
          rw [List.mem_singleton] at h
          exact Or.inl ⟨hg.2, hpr, h⟩
      · split at h
        case isTrue hd =>
          rw [List.mem_singleton] at h
          exact Or.inr (Or.inr (Or.inl ⟨hg.2, hd.1, hd.2, h⟩))
        case isFalse hd =>
          cases h
    case isFalse hg =>
      cases h
  · obtain ⟨dc, hdc, h⟩ := List.mem_flatMap.mp h
    have hdc2 : dc = -1 ∨ dc = 1 := by simpa using hdc
    dsimp only at h
    by_cases hib : inBounds (o.row + pawnDir pc) (o.col + dc) = true
    case neg =>
      rw [if_neg hib] at h
      cases h
    case pos =>
      rw [if_pos hib] at h
      rcases List.mem_append.mp h with h | h
      · rcases htgt : board (o.row + pawnDir pc) (o.col + dc) with _ | tgt <;>
          rw [htgt] at h <;> dsimp only at h
        · cases h
        · by_cases hcol : tgt.color ≠ pc.color
          case neg =>
            rw [if_neg hcol] at h
            cases h
          case pos =>
            rw [if_pos hcol] at h
            by_cases hprow : o.row + pawnDir pc = pawnPromoRow pc
            case pos =>
              rw [if_pos hprow] at h
              obtain ⟨pr, hprm, rfl⟩ := List.mem_map.mp h
              exact Or.inr (Or.inr (Or.inr (Or.inr (Or.inl
                ⟨dc, hdc2, ⟨tgt, htgt, hcol⟩, hprow, pr, hprm, rfl⟩))))
            case neg =>
              rw [if_neg hprow] at h
              rw [List.mem_singleton] at h
              exact Or.inr (Or.inr (Or.inr (Or.inl ⟨dc, hdc2, ⟨tgt, htgt, hcol⟩, hprow, h⟩)))
      · obtain _ | t := ep
        · simp only [List.mem_nil_iff] at h
        · dsimp only at h
          by_cases hmt : t.row = o.row + pawnDir pc ∧ t.col = o.col + dc
          case pos =>
            rw [if_pos hmt] at h
            rw [List.mem_singleton] at h
            refine Or.inr (Or.inr (Or.inr (Or.inr (Or.inr ⟨dc, hdc2, ?_, h⟩))))
            have ht : t = ⟨o.row + pawnDir pc, o.col + dc⟩ := by
              cases t
              simp only [Pos.mk.injEq]
              exact ⟨hmt.1, hmt.2⟩
            rw [ht]
          case neg =>
            rw [if_neg hmt] at h
            cases h

end Chess

namespace Chess

theorem mem_knightRaw {board : Board} {o : Pos} {pc : Piece} {m : Move}
    (h : m ∈ knightRaw board o pc) : m = mkMove board o pc m.toSq := by
  obtain ⟨d, hd, hsome⟩ := List.mem_filterMap.mp h
  dsimp only at hsome
  split at hsome
  · obtain rfl := Option.some.inj hsome
    rfl
  · cases hsome

theorem mem_slideRaw {board : Board} {o : Pos} {pc : Piece} {dirs : List (Int × Int)}
    {m : Move} (h : m ∈ slideRaw board o pc dirs) : m = mkMove board o pc m.toSq := by
  obtain ⟨d, hd, h⟩ := List.mem_flatMap.mp h
  obtain ⟨p, hp, rfl⟩ := List.mem_map.mp h
  rfl

theorem mem_ite_singleton {α : Type} {G : Bool} {x m : α}
    (h : m ∈ (if G = true then [x] else [])) : G = true ∧ m = x := by
  split at h
  case isTrue hg => exact ⟨hg, List.mem_singleton.mp h⟩
  case isFalse => cases h

theorem mem_kingRaw {board : Board} {cs : CastlingState} {turn : PieceColor}
    {o : Pos} {pc : Piece} {m : Move} (h : m ∈ kingRaw board cs turn o pc) :
    (∃ d ∈ kingOffsets, m = mkMove board o pc ⟨o.row + d.1, o.col + d.2⟩) ∨
    ((if turn = .w then cs.w else cs.b).k = true ∧
      (board o.row 5).isNone = true ∧ (board o.row 6).isNone = true ∧
      m = { mkMove board o pc ⟨o.row, 6⟩ with castling := some .kingside }) ∨
    ((board o.row 3).isNone = true ∧ (board o.row 2).isNone = true ∧
      (board o.row 1).isNone = true ∧
      m = { mkMove board o pc ⟨o.row, 2⟩ with castling := some .queenside }) := by
  unfold kingRaw at h
  dsimp only at h
  rcases List.mem_append.mp h with h | h
  · rcases List.mem_append.mp h with h | h
    · obtain ⟨d, hd, hsome⟩ := List.mem_filterMap.mp h
      split at hsome
      · obtain rfl := Option.some.inj hsome
        exact Or.inl ⟨d, hd, rfl⟩
      · cases hsome
    · obtain ⟨hg, hm⟩ := mem_ite_singleton h
      simp only [Bool.and_eq_true] at hg
      exact Or.inr (Or.inl ⟨hg.1.1.1.1.1, hg.1.1.1.1.2, hg.1.1.1.2, hm⟩)
  · obtain ⟨hg, hm⟩ := mem_ite_singleton h
    simp only [Bool.and_eq_true] at hg
    exact Or.inr (Or.inr ⟨hg.1.1.1.1.1.2, hg.1.1.1.1.2, hg.1.1.1.2, hm⟩)

end Chess

namespace Chess

theorem pawnRaw_shape {board : Board} {ep : Option Pos} {o : Pos} {pc : Piece} {m : Move}
    (h : m ∈ pawnRaw board ep o pc) : m.fromSq = o ∧ m.piece = pc := by
  rcases mem_pawnRaw h with ⟨_, _, rfl⟩ | ⟨_, _, pr, _, rfl⟩ | ⟨_, _, _, rfl⟩ |
    ⟨dc, _, _, _, rfl⟩ | ⟨dc, _, _, _, pr, _, rfl⟩ | ⟨dc, _, _, rfl⟩ <;>
    exact ⟨rfl, rfl⟩

theorem kingRaw_shape {board : Board} {cs : CastlingState} {turn : PieceColor}
    {o : Pos} {pc : Piece} {m : Move} (h : m ∈ kingRaw board cs turn o pc) :
    m.fromSq = o ∧ m.piece = pc := by
  rcases mem_kingRaw h with ⟨d, _, rfl⟩ | ⟨_, _, _, rfl⟩ | ⟨_, _, _, rfl⟩ <;>
    exact ⟨rfl, rfl⟩

theorem getRawMoves_shape {s : GameState} {o : Pos} {m : Move}
    (h : m ∈ getRawMoves s o) :
    m.fromSq = o ∧ s.board o.row o.col = some m.piece ∧ m.piece.color = s.turn := by
  unfold getRawMoves at h
  split at h
  case h_1 => cases h
  case h_2 piece hb =>
    split at h
    case isTrue => cases h
    case isFalse hcol =>
      have hcol2 : piece.color = s.turn := not_ne_iff.mp hcol
      split at h
      case h_1 hp =>
        obtain ⟨h1, h2⟩ := pawnRaw_shape h
        exact ⟨h1, by rw [hb, h2], by rw [h2]; exact hcol2⟩
      case h_2 hp =>
        have hm := mem_knightRaw h
        exact ⟨by rw [hm]; rfl, by rw [hm]; exact hb, by rw [hm]; exact hcol2⟩
      case h_3 hp =>
        obtain ⟨h1, h2⟩ := kingRaw_shape h
        exact ⟨h1, by rw [hb, h2], by rw [h2]; exact hcol2⟩
      case h_4 hp =>
        have hm := mem_slideRaw h
        exact ⟨by rw [hm]; rfl, by rw [hm]; exact hb, by rw [hm]; exact hcol2⟩
      case h_5 hp =>
        have hm := mem_slideRaw h
        exact ⟨by rw [hm]; rfl, by rw [hm]; exact hb, by rw [hm]; exact hcol2⟩
      case h_6 hp =>
        have hm := mem_slideRaw h
        exact ⟨by rw [hm]; rfl, by rw [hm]; exact hb, by rw [hm]; exact hcol2⟩

theorem getRawMoves_promo {s : GameState} {o : Pos} {m : Move}
    (h : m ∈ getRawMoves s o) :
    m.promotion = none ∨ ∃ pr ∈ promoTypes, m.promotion = some pr := by
  unfold getRawMoves at h
  split at h
  case h_1 => cases h
  case h_2 piece hb =>
    split at h
    case isTrue => cases h
    case isFalse hcol =>
      split at h
      case h_1 hp =>
        rcases mem_pawnRaw h with ⟨_, _, rfl⟩ | ⟨_, _, pr, hpr, rfl⟩ | ⟨_, _, _, rfl⟩ |
          ⟨dc, _, _, _, rfl⟩ | ⟨dc, _, _, _, pr, hpr, rfl⟩ | ⟨dc, _, _, rfl⟩
        · exact Or.inl rfl
        · exact Or.inr ⟨pr, hpr, rfl⟩
        · exact Or.inl rfl
        · exact Or.inl rfl
        · exact Or.inr ⟨pr, hpr, rfl⟩
        · exact Or.inl rfl
      case h_2 hp =>
        have hm := mem_knightRaw h
        exact Or.inl (by rw [hm]; rfl)
      case h_3 hp =>
        rcases mem_kingRaw h with ⟨d, _, rfl⟩ | ⟨_, _, _, rfl⟩ | ⟨_, _, _, rfl⟩ <;>
          exact Or.inl rfl
      case h_4 hp =>
        have hm := mem_slideRaw h
        exact Or.inl (by rw [hm]; rfl)
      case h_5 hp =>
        have hm := mem_slideRaw h
        exact Or.inl (by rw [hm]; rfl)
      case h_6 hp =>
        have hm := mem_slideRaw h
        exact Or.inl (by rw [hm]; rfl)

end Chess

namespace Chess

/-- Among pawn raw moves from one origin, destination square plus the
promotion filter of replayMoves determine the move uniquely, provided the
stored en-passant target square is empty. -/
theorem pawnRaw_uniq {board : Board} {ep : Option Pos} {o : Pos} {pc : Piece}
    {m l : Move}
    (hepInv : ∀ t : Pos, ep = some t → board t.row t.col = none)
    (hm : m ∈ pawnRaw board ep o pc) (hl : l ∈ pawnRaw board ep o pc)
    (hto : l.toSq = m.toSq)
    (hpr : m.promotion = none ∨ l.promotion = m.promotion) : l = m := by
  have hdir : pawnDir pc = -1 ∨ pawnDir pc = 1 := by
    unfold pawnDir
    split
    · exact Or.inl rfl
    · exact Or.inr rfl
  rcases mem_pawnRaw hm with
    ⟨hmg, hmnp, rfl⟩ | ⟨hmg, hmp, prm, hprm, rfl⟩ | ⟨hmg, hms, hmg2, rfl⟩ |
    ⟨dcm, hdcm, ⟨tgtm, htgtm, hcolm⟩, hmnp, rfl⟩ |
    ⟨dcm, hdcm, ⟨tgtm, htgtm, hcolm⟩, hmp, prm, hprm, rfl⟩ |
    ⟨dcm, hdcm, hepm, rfl⟩ <;>
  rcases mem_pawnRaw hl with
    ⟨hlg, hlnp, rfl⟩ | ⟨hlg, hlp, prl, hprl, rfl⟩ | ⟨hlg, hls, hlg2, rfl⟩ |
    ⟨dcl, hdcl, ⟨tgtl, htgtl, hcoll⟩, hlnp, rfl⟩ |
    ⟨dcl, hdcl, ⟨tgtl, htgtl, hcoll⟩, hlp, prl, hprl, rfl⟩ |
    ⟨dcl, hdcl, hepl, rfl⟩ <;>
  first
  | rfl
  | (dsimp only [mkMove] at hto
     rw [Pos.mk.injEq] at hto
     first
     | (exfalso; omega)
     | (obtain ⟨hr1, hr2⟩ := hto
        have hdceq : dcl = dcm := by omega
        subst hdceq
        first
        | rfl
        | (exfalso
           have hbn := hepInv _ hepl
           dsimp only at hbn
           rw [hbn] at htgtm
           exact Option.noConfusion htgtm)
        | (exfalso
           have hbn := hepInv _ hepm
           dsimp only at hbn
           rw [hbn] at htgtl
           exact Option.noConfusion htgtl)
        | (dsimp only [mkMove] at hpr
           rcases hpr with hh | hh
           · exact Option.noConfusion hh
           · obtain rfl := Option.some.inj hh
             rfl))
     | (dsimp only [mkMove] at hpr
        rcases hpr with hh | hh
        · exact Option.noConfusion hh
        · obtain rfl := Option.some.inj hh
          rfl))

end Chess

namespace Chess

/-- Among king raw moves from one origin, the destination square determines
the move uniquely, provided the piece on the origin is the king of the side
to move and, while the kingside right is held, that king is not on file 7. -/
theorem kingRaw_uniq {board : Board} {cs : CastlingState} {turn : PieceColor}
    {o : Pos} {pc : Piece} {m l : Move}
    (hboard : board o.row o.col = some pc)
    (hpc : pc = ⟨.k, turn⟩)
    (hcol7 : (if turn = PieceColor.w then cs.w else cs.b).k = true →
      board o.row 7 ≠ some ⟨.k, turn⟩)
    (hm : m ∈ kingRaw board cs turn o pc) (hl : l ∈ kingRaw board cs turn o pc)
    (hto : l.toSq = m.toSq) : l = m := by
  subst hpc
  rcases mem_kingRaw hm with ⟨dm, hdm, rfl⟩ | ⟨hkm, h5m, h6m, rfl⟩ | ⟨h3m, h2m, h1m, rfl⟩ <;>
    rcases mem_kingRaw hl with ⟨dl, hdl, rfl⟩ | ⟨hkl, h5l, h6l, rfl⟩ | ⟨h3l, h2l, h1l, rfl⟩ <;>
    dsimp only [mkMove] at hto <;>
    rw [Pos.mk.injEq] at hto <;>
    obtain ⟨hr, hc⟩ := hto <;>
    first
    | rfl
    | (exfalso; omega)
    | exact congrArg (mkMove board o ⟨.k, turn⟩) (by rw [Pos.mk.injEq]; exact ⟨hr, hc⟩)
    | (simp only [kingOffsets, List.mem_cons, List.not_mem_nil, or_false] at hdm
       rcases hdm with rfl | rfl | rfl | rfl | rfl | rfl | rfl | rfl <;>
         first
         | (exfalso; omega)
         | (have h7 : o.col = 7 := by omega
            rw [h7] at hboard
            exact absurd hboard (hcol7 hkl))
         | (have h5 : o.col = 5 := by omega
            rw [h5] at hboard
            rw [hboard] at h5l
            simp at h5l)
         | (have h3 : o.col = 3 := by omega
            rw [h3] at hboard
            rw [hboard] at h3l
            simp at h3l)
         | (have h1 : o.col = 1 := by omega
            rw [h1] at hboard
            rw [hboard] at h1l
            simp at h1l))
    | (simp only [kingOffsets, List.mem_cons, List.not_mem_nil, or_false] at hdl
       rcases hdl with rfl | rfl | rfl | rfl | rfl | rfl | rfl | rfl <;>
         first
         | (exfalso; omega)
         | (have h7 : o.col = 7 := by omega
            rw [h7] at hboard
            exact absurd hboard (hcol7 hkm))
         | (have h5 : o.col = 5 := by omega
            rw [h5] at hboard
            rw [hboard] at h5m
            simp at h5m)
         | (have h3 : o.col = 3 := by omega
            rw [h3] at hboard
            rw [hboard] at h3m
            simp at h3m)
         | (have h1 : o.col = 1 := by omega
            rw [h1] at hboard
            rw [hboard] at h1m
            simp at h1m))

end Chess

namespace Chess

/-- Among all raw moves from one origin, destination plus the promotion
filter of replayMoves determine the move uniquely, under the reachability
invariants. -/
theorem getRawMoves_uniq {s : GameState} {o : Pos} {m l : Move}
    (hepInv : ∀ t : Pos, s.enPassantTarget = some t → s.board t.row t.col = none)
    (hcol7 : ∀ (c : PieceColor) (r : Int), castleK s.castling c = true →
      s.board r 7 ≠ some ⟨.k, c⟩)
    (hm : m ∈ getRawMoves s o) (hl : l ∈ getRawMoves s o)
    (hto : l.toSq = m.toSq)
    (hpr : m.promotion = none ∨ l.promotion = m.promotion) : l = m := by
  unfold getRawMoves at hm hl
  rcases hb : s.board o.row o.col with _ | piece <;> rw [hb] at hm hl <;>
    dsimp only at hm hl
  · cases hm
  · by_cases hcolr : piece.color ≠ s.turn
    · rw [if_pos hcolr] at hm
      cases hm
    · rw [if_neg hcolr] at hm hl
      rcases hpt : piece.type with _ | _ | _ | _ | _ | _ <;> rw [hpt] at hm hl <;>
        dsimp only at hm hl
      · exact pawnRaw_uniq hepInv hm hl hto hpr
      · have h1 := mem_knightRaw hm
        have h2 := mem_knightRaw hl
        rw [h2, hto]
        exact h1.symm
      · have h1 := mem_slideRaw hm
        have h2 := mem_slideRaw hl
        rw [h2, hto]
        exact h1.symm
      · have h1 := mem_slideRaw hm
        have h2 := mem_slideRaw hl
        rw [h2, hto]
        exact h1.symm
      · have h1 := mem_slideRaw hm
        have h2 := mem_slideRaw hl
        rw [h2, hto]
        exact h1.symm
      · have hpce : piece = ⟨.k, s.turn⟩ := by
          rcases piece with ⟨pt, pcc⟩
          dsimp only at hpt
          have hcc : pcc = s.turn := not_ne_iff.mp hcolr
          rw [hpt, hcc]
        have hc7 : (if s.turn = PieceColor.w then s.castling.w else s.castling.b).k = true →
            s.board o.row 7 ≠ some ⟨.k, s.turn⟩ := by
          intro hk
          apply hcol7 s.turn o.row
          cases hst : s.turn <;> rw [hst] at hk <;> simpa [castleK] using hk
        exact kingRaw_uniq hb hpce hc7 hm hl hto

end Chess

namespace Chess

theorem find?_eq_some_of_unique {α : Type} (p : α → Bool) (m : α) :
    ∀ xs : List α, m ∈ xs → p m = true → (∀ x ∈ xs, p x = true → x = m) →
      xs.find? p = some m := by
  intro xs
  induction xs with
  | nil =>
    intro hm _ _
    cases hm
  | cons a as ih =>
    intro hm hp hu
    by_cases hpa : p a = true
    · rw [List.find?_cons_of_pos _ hpa]
      exact congrArg some (hu a (List.mem_cons_self _ _) hpa)
    · rw [List.find?_cons_of_neg _ (by simpa using hpa)]
      rcases List.mem_cons.mp hm with rfl | hm2
      · exact absurd hp hpa
      · exact ih hm2 hp (fun x hx hpx => hu x (List.mem_cons_of_mem _ hx) hpx)

/-- One replay step on a legal move of the current state applies exactly
that move: the find of replayMoves locates it and nothing else. -/
theorem replayStep_eq_makeMove {s : GameState} {m : Move} {o : Pos}
    (hInv : Inv s) (hm : m ∈ getLegalMoves s o) :
    replayStep s (toWire m) = makeMove s m := by
  have hraw : m ∈ getRawMoves s o := (List.mem_filter.mp hm).1
  have hfrom : m.fromSq = o := (getRawMoves_shape hraw).1
  subst hfrom
  have hfind : (getLegalMoves s m.fromSq).find?
      (fun l => decide (l.toSq = m.toSq) &&
        (match m.promotion with
         | none => true
         | some pr => decide (l.promotion = some pr))) = some m := by
    apply find?_eq_some_of_unique _ _ _ hm
    · rcases hmp : m.promotion with _ | pr <;> simp [hmp]
    · intro x hx hpx
      have hxraw : x ∈ getRawMoves s m.fromSq := (List.mem_filter.mp hx).1
      simp only [Bool.and_eq_true, decide_eq_true_eq] at hpx
      obtain ⟨hxto, hxpr⟩ := hpx
      apply getRawMoves_uniq hInv.1 hInv.2 hraw hxraw hxto
      rcases hmp : m.promotion with _ | pr
      · exact Or.inl rfl
      · right
        rw [hmp] at hxpr
        simp only [decide_eq_true_eq] at hxpr
        exact hxpr
  unfold replayStep
  dsimp only [toWire]
  rw [hfind]

end Chess

namespace Chess

theorem setSq_eval (b : Board) (r0 c0 : Int) (v : Option Piece) (r c : Int) :
    setSq b r0 c0 v r c = if r = r0 ∧ c = c0 then v else b r c := rfl

/-- A quiet (non-castling, non-en-passant) move leaves every square other
than its origin and destination unchanged. -/
theorem applyMoveToBoard_other (board : Board) (m : Move) (r c : Int)
    (hf : ¬(r = m.fromSq.row ∧ c = m.fromSq.col))
    (ht : ¬(r = m.toSq.row ∧ c = m.toSq.col))
    (hep : m.enPassant = false) (hcs : m.castling = none) :
    applyMoveToBoard board m r c = board r c := by
  unfold applyMoveToBoard applyQueensideRook applyKingsideRook applyEnPassantRemoval
    clearFromSq applyPromoOrMove
  simp only [hep, hcs, Bool.false_eq_true, if_false, reduceCtorEq, setSq_eval]
  rw [if_neg hf, if_neg ht]

theorem applyQueensideRook_col7 (b : Board) (m : Move) (r : Int) :
    applyQueensideRook b m r 7 = b r 7 := by
  unfold applyQueensideRook
  split_ifs with h
  · simp only [setSq_eval]
    rw [if_neg (fun hc => absurd hc.2 (by decide)),
      if_neg (fun hc => absurd hc.2 (by decide))]
  · rfl

theorem applyKingsideRook_col7 (b : Board) (m : Move) (r : Int) :
    applyKingsideRook b m r 7 = b r 7 ∨ applyKingsideRook b m r 7 = none := by
  unfold applyKingsideRook
  split_ifs with h
  · simp only [setSq_eval]
    by_cases h2 : r = m.fromSq.row
    · rw [if_pos (show r = m.fromSq.row ∧ True from ⟨h2, trivial⟩)]
      exact Or.inr rfl
    · rw [if_neg (fun hc => h2 hc.1), if_neg (fun hc => h2 hc.1)]
      exact Or.inl rfl
  · exact Or.inl rfl

theorem applyEnPassantRemoval_cases (b : Board) (m : Move) (r c : Int) :
    applyEnPassantRemoval b m r c = b r c ∨ applyEnPassantRemoval b m r c = none := by
  unfold applyEnPassantRemoval
  split_ifs with h
  · simp only [setSq_eval]
    split_ifs with h2
    · exact Or.inr rfl
    · exact Or.inl rfl
  · exact Or.inl rfl

theorem clearFromSq_cases (b : Board) (m : Move) (r c : Int) :
    clearFromSq b m r c = b r c ∨ clearFromSq b m r c = none := by
  unfold clearFromSq
  simp only [setSq_eval]
  split_ifs with h
  · exact Or.inr rfl
  · exact Or.inl rfl

theorem applyPromoOrMove_cases (b : Board) (m : Move) (r c : Int) :
    applyPromoOrMove b m r c = b r c ∨
    (r = m.toSq.row ∧ c = m.toSq.col ∧
      applyPromoOrMove b m r c =
        (match m.promotion with
         | some pr => some ⟨pr, m.piece.color⟩
         | none => b m.fromSq.row m.fromSq.col)) := by
  unfold applyPromoOrMove
  simp only [setSq_eval]
  split_ifs with h
  · exact Or.inr ⟨h.1, h.2, rfl⟩
  · exact Or.inl rfl

/-- What the board can hold on file 7 after a move: the old content, an
emptied square, or the moved (possibly promoted) piece on its destination. -/
theorem applyMoveToBoard_col7 (board : Board) (m : Move) (r : Int) :
    applyMoveToBoard board m r 7 = board r 7 ∨
    applyMoveToBoard board m r 7 = none ∨
    (r = m.toSq.row ∧ (7 : Int) = m.toSq.col ∧
      applyMoveToBoard board m r 7 =
        (match m.promotion with
         | some pr => some ⟨pr, m.piece.color⟩
         | none => board m.fromSq.row m.fromSq.col)) := by
  have hdef : applyMoveToBoard board m r 7 =
      applyQueensideRook (applyKingsideRook (applyEnPassantRemoval
        (clearFromSq (applyPromoOrMove board m) m) m) m) m r 7 := rfl
  rw [hdef, applyQueensideRook_col7]
  rcases applyKingsideRook_col7 (applyEnPassantRemoval
      (clearFromSq (applyPromoOrMove board m) m) m) m r with h4 | h4
  · rw [h4]
    rcases applyEnPassantRemoval_cases (clearFromSq (applyPromoOrMove board m) m) m r 7 with
      h3 | h3
    · rw [h3]
      rcases clearFromSq_cases (applyPromoOrMove board m) m r 7 with h2 | h2
      · rw [h2]
        rcases applyPromoOrMove_cases board m r 7 with h1 | ⟨hr1, hc1, h1⟩
        · exact Or.inl h1
        · exact Or.inr (Or.inr ⟨hr1, hc1, h1⟩)
      · exact Or.inr (Or.inl h2)
    · exact Or.inr (Or.inl h3)
  · exact Or.inr (Or.inl h4)

end Chess

namespace Chess

/-- A raw pawn move spanning two rows is the double push: its guards and
field values follow. -/
theorem raw_double_push {s : GameState} {o : Pos} {m : Move}
    (hm : m ∈ getRawMoves s o) (hp : m.piece.type = .p)
    (hd2 : m.toSq.row - m.fromSq.row = 2 ∨ m.toSq.row - m.fromSq.row = -2) :
    s.board (o.row + pawnDir m.piece) o.col = none ∧
    m.toSq = ⟨o.row + 2 * pawnDir m.piece, o.col⟩ ∧
    m.promotion = none ∧ m.enPassant = false ∧ m.castling = none := by
  have hdir : pawnDir m.piece = -1 ∨ pawnDir m.piece = 1 := by
    unfold pawnDir
    split
    · exact Or.inl rfl
    · exact Or.inr rfl
  have hshape := getRawMoves_shape hm
  unfold getRawMoves at hm
  rcases hb : s.board o.row o.col with _ | piece <;> rw [hb] at hm <;> dsimp only at hm
  · cases hm
  · split at hm
    case isTrue => cases hm
    case isFalse hcolr =>
      have hpe : piece = m.piece := by
        have := hshape.2.1
        rw [hb] at this
        exact Option.some.inj this
      rw [← hpe] at hp ⊢
      split at hm
      case h_2 hpt | h_3 hpt | h_4 hpt | h_5 hpt | h_6 hpt =>
        rw [hp] at hpt
        cases hpt
      case h_1 hpt =>
        rcases mem_pawnRaw hm with
          ⟨hmg, hmnp, rfl⟩ | ⟨hmg, hmp, prm, hprm, rfl⟩ | ⟨hmg, hms, hmg2, rfl⟩ |
          ⟨dcm, hdcm, ⟨tgtm, htgtm, hcolm⟩, hmnp, rfl⟩ |
          ⟨dcm, hdcm, ⟨tgtm, htgtm, hcolm⟩, hmp, prm, hprm, rfl⟩ |
          ⟨dcm, hdcm, hepm, rfl⟩ <;>
          dsimp only [mkMove] at hd2 hdir ⊢ <;>
          first
          | (exfalso; omega)
          | exact ⟨hmg, rfl, rfl, rfl, rfl⟩

end Chess

namespace Chess

theorem rightsLE_castleK {a b : CastlingState} (h : rightsLE a b) (c : PieceColor) :
    castleK a c ≤ castleK b c := by
  cases c
  · exact h.1
  · exact h.2.2.1

/-- A king move clears the kingside right of its color for good. -/
theorem updateCastlingRights_kingMove {cs : CastlingState} {m : Move} {c : PieceColor}
    (h1 : m.piece.type = .k) (h2 : m.piece.color = c) :
    castleK (updateCastlingRights cs m) c = false := by
  have hstep : castleK (castleAfterKingMove cs m) c = false := by
    unfold castleAfterKingMove
    rw [if_pos h1, h2]
    cases c <;> rfl
  have hle : rightsLE (updateCastlingRights cs m) (castleAfterKingMove cs m) := by
    unfold updateCastlingRights
    exact rightsLE_trans (castleCapWK_le _ _) (rightsLE_trans (castleCapWQ_le _ _)
      (rightsLE_trans (castleCapBK_le _ _) (rightsLE_trans (castleCapBQ_le _ _)
        (rightsLE_trans (castleAfterRookFrom7_le _ _) (castleAfterRookFrom0_le _ _)))))
  have hk := rightsLE_castleK hle c
  rw [hstep] at hk
  cases hcase : castleK (updateCastlingRights cs m) c
  · rfl
  · rw [hcase] at hk
    exact absurd hk (by decide)

/-- The reachability invariants hold in the initial state. -/
theorem inv_init : Inv createInitialState := by
  constructor
  · intro t ht
    cases ht
  · intro c r _ hb
    have hb2 : createInitialBoard r 7 = some ⟨.k, c⟩ := hb
    unfold createInitialBoard at hb2
    rw [if_pos (by constructor <;> decide)] at hb2
    split_ifs at hb2 <;> cases hb2

end Chess

namespace Chess

theorem pawnDir_pm (pc : Piece) : pawnDir pc = -1 ∨ pawnDir pc = 1 := by
  unfold pawnDir
  split
  · exact Or.inl rfl
  · exact Or.inr rfl

theorem makeMoveBase_enPassantTarget (s : GameState) (m : Move) :
    (makeMoveBase s m).enPassantTarget =
      if m.piece.type = .p ∧
          (m.toSq.row - m.fromSq.row = 2 ∨ m.toSq.row - m.fromSq.row = -2) then
        some ⟨(m.fromSq.row + m.toSq.row) / 2, m.fromSq.col⟩
      else none := rfl

/-- The replay invariants are preserved by makeMove on a legal move. -/
theorem inv_step {s : GameState} {o : Pos} {m : Move}
    (hInv : Inv s) (hm : m ∈ getLegalMoves s o) : Inv (makeMove s m) := by
  have hraw : m ∈ getRawMoves s o := (List.mem_filter.mp hm).1
  have hshape := getRawMoves_shape hraw
  have hfrom := hshape.1
  have hbo := hshape.2.1
  constructor
  · intro t ht
    rw [makeMove_enPassantTarget, makeMoveBase_enPassantTarget] at ht
    rw [makeMove_board]
    split at ht
    case isFalse => cases ht
    case isTrue hc =>
      obtain ⟨hempty, hto, hpromo, hepf, hcsn⟩ := raw_double_push hraw hc.1 hc.2
      have ht2 := Option.some.inj ht
      have hdir := pawnDir_pm m.piece
      have hfr : m.fromSq.row = o.row := by rw [hfrom]
      have hfc : m.fromSq.col = o.col := by rw [hfrom]
      have htor : m.toSq.row = o.row + 2 * pawnDir m.piece := by rw [hto]
      have htr : t.row = o.row + pawnDir m.piece := by
        rw [← ht2]
        show (m.fromSq.row + m.toSq.row) / 2 = o.row + pawnDir m.piece
        rw [hfr, htor]
        omega
      have htc : t.col = o.col := by
        rw [← ht2]
        show m.fromSq.col = o.col
        exact hfc
      have hf : ¬(t.row = m.fromSq.row ∧ t.col = m.fromSq.col) := by
        intro hcontra
        rw [hfr] at hcontra
        omega
      have hT : ¬(t.row = m.toSq.row ∧ t.col = m.toSq.col) := by
        intro hcontra
        rw [htor] at hcontra
        omega
      rw [applyMoveToBoard_other s.board m t.row t.col hf hT hepf hcsn, htr, htc]
      exact hempty
  · intro c r hk hb
    rw [makeMove_castling] at hk
    rw [makeMove_board] at hb
    have hle := rightsLE_castleK (updateCastlingRights_le s.castling m) c
    rw [hk] at hle
    have hkold : castleK s.castling c = true := by
      cases hcase : castleK s.castling c
      · rw [hcase] at hle
        exact absurd hle (by decide)
      · rfl
    rcases applyMoveToBoard_col7 s.board m r with h1 | h1 | ⟨hr, hc7, h1⟩
    · rw [h1] at hb
      exact hInv.2 c r hkold hb
    · rw [h1] at hb
      cases hb
    · rw [h1] at hb
      rcases hpe : m.promotion with _ | pr
      · rw [hpe] at hb
        rw [hfrom] at hb
        have hpieceeq : m.piece = ⟨PieceType.k, c⟩ := by
          rw [hbo] at hb
          exact Option.some.inj hb
        have hkfalse : castleK (updateCastlingRights s.castling m) c = false :=
          updateCastlingRights_kingMove (by rw [hpieceeq]) (by rw [hpieceeq])
        rw [hkfalse] at hk
        cases hk
      · rw [hpe] at hb
        have hprk : pr = PieceType.k := congrArg Piece.type (Option.some.inj hb)
        rcases getRawMoves_promo hraw with hnone | ⟨pr2, hpr2, hpe2⟩
        · rw [hpe] at hnone
          cases hnone
        · rw [hpe] at hpe2
          have h12 : pr = pr2 := Option.some.inj hpe2
          rw [← h12, hprk] at hpr2
          exact absurd hpr2 (by decide)

end Chess

namespace Chess

/-- Every reachable state satisfies the replay invariants. -/
theorem reach_inv {s : GameState} (h : Reachable s) : Inv s := by
  induction h with
  | init => exact inv_init
  | step s m o hr hm ih => exact inv_step ih hm

/-- Replaying the stored move history of a reachable state reproduces the
state itself. -/
theorem reach_replay {s : GameState} (h : Reachable s) :
    replayMoves (s.moveHistory.map toWire) = s := by
  induction h with
  | init => rfl
  | step s m o hr hm ih =>
    have hx : List.foldl replayStep createInitialState (s.moveHistory.map toWire) = s := ih
    rw [makeMove_moveHistory, List.map_append]
    show List.foldl replayStep createInitialState
      (s.moveHistory.map toWire ++ [m].map toWire) = makeMove s m
    rw [List.foldl_append]
    show replayStep (List.foldl replayStep createInitialState (s.moveHistory.map toWire))
      (toWire m) = makeMove s m
    rw [hx]
    exact replayStep_eq_makeMove (reach_inv hr) hm

end Chess

namespace Chess

/-- Claim C2: for every GameState reachable from createInitialState by
repeatedly applying makeMove to a move drawn from getLegalMoves, replaying
its moveHistory from the initial position the way replayMoves does -
matching each entry by origin square, destination square and promotion
against getLegalMoves of the intermediate state - reproduces the same
board, turn, castling rights and clocks as the state itself. -/
theorem replay_reproduces_state (s : GameState) (h : Reachable s) :
    (replayMoves (s.moveHistory.map toWire)).board = s.board ∧
    (replayMoves (s.moveHistory.map toWire)).turn = s.turn ∧
    (replayMoves (s.moveHistory.map toWire)).castling = s.castling ∧
    (replayMoves (s.moveHistory.map toWire)).halfMoveClock = s.halfMoveClock ∧
    (replayMoves (s.moveHistory.map toWire)).fullMoveNumber = s.fullMoveNumber := by
  rw [reach_replay h]
  exact ⟨rfl, rfl, rfl, rfl, rfl⟩

/-- Witness for C2 at a concrete reachable state: the position after the
double pawn push e2-e4 from the initial position. -/
theorem replay_reproduces_state_witness :
    (replayMoves ((makeMove createInitialState Fixtures.e2e4).moveHistory.map toWire)).board =
      (makeMove createInitialState Fixtures.e2e4).board ∧
    (replayMoves ((makeMove createInitialState Fixtures.e2e4).moveHistory.map toWire)).turn =
      (makeMove createInitialState Fixtures.e2e4).turn ∧
    (replayMoves ((makeMove createInitialState Fixtures.e2e4).moveHistory.map toWire)).castling =
      (makeMove createInitialState Fixtures.e2e4).castling ∧
    (replayMoves ((makeMove createInitialState
        Fixtures.e2e4).moveHistory.map toWire)).halfMoveClock =
      (makeMove createInitialState Fixtures.e2e4).halfMoveClock ∧
    (replayMoves ((makeMove createInitialState
        Fixtures.e2e4).moveHistory.map toWire)).fullMoveNumber =
      (makeMove createInitialState Fixtures.e2e4).fullMoveNumber :=
  replay_reproduces_state (makeMove createInitialState Fixtures.e2e4)
    (Reachable.step createInitialState Fixtures.e2e4 ⟨6, 4⟩ Reachable.init (by decide))

end Chess
